import Mathlib

/-! Shallow embedding of `src/utilities.py`: pandas-style dataframes and the two
transforms `clean_money_columns` and `clean_types`.  Numeric cell values are
modelled by an arbitrary `Field R`; the floating-point functions `np.log` and
the square root used by `Series.std` are explicit parameters `logFn`/`sqrtFn`,
and the claims about the numeric transforms instantiate `R := ℝ`,
`logFn := Real.log`, `sqrtFn := Real.sqrt`.  The `verbose` flag of both
functions only prints diagnostic lines and has no effect on the returned data,
so it is omitted from the embedding. -/

namespace Utilities

/-- Column dtypes that the two source functions distinguish. -/
inductive Dtype where
  | object
  | string
  | float64
  | int64
  | bool
  | boolean
  | category
deriving DecidableEq, Repr

/-- Errors raised by the pandas operations appearing in the source:
`ValueError` from `astype(float)` on an unparseable string, and
`AttributeError` from the `.str` accessor on a non-string column. -/
inductive PdError where
  | valueError
  | attributeError
deriving DecidableEq, Repr

/-- A single cell value: a text value, a finite numeric value, a signed
floating-point infinity, a boolean, or missing (`NaN`/`pd.NA`; a float `NaN`
is pandas' missing marker). -/
inductive Cell (R : Type) where
  | str (s : String)
  | num (x : R)
  | inf (neg : Bool)
  | bool (b : Bool)
  | na
deriving DecidableEq, Repr

/-- A column: a dtype together with the list of cell values. -/
structure Column (R : Type) where
  dtype : Dtype
  cells : List (Cell R)
deriving DecidableEq, Repr

/-- A dataframe: a row index and an ordered list of named columns, with the
well-formedness invariant of the data model that column names are unique
(columns are addressable by name). -/
structure DataFrame (R : Type) where
  idx : List Int
  cols : List (String × Column R)
  nodup : (cols.map Prod.fst).Nodup

/-- The ordered list of column names. -/
def DataFrame.names {R : Type} (df : DataFrame R) : List String :=
  df.cols.map Prod.fst

/-- Look a column up by name in a named-column list. -/
def listFind {R : Type} (cols : List (String × Column R)) (n : String) :
    Option (Column R) :=
  (cols.find? (fun p => p.1 == n)).map Prod.snd

/-- Look a column up by name (`dataset[name]` read access). -/
def DataFrame.find {R : Type} (df : DataFrame R) (n : String) : Option (Column R) :=
  listFind df.cols n

/-- Keyed column assignment on the column list (`dataset[name] = column`):
overwrite the column of that name in place if it exists, otherwise append the
new column at the end. -/
def setColList {R : Type} (cols : List (String × Column R)) (n : String)
    (c : Column R) : List (String × Column R) :=
  if n ∈ cols.map Prod.fst then
    cols.map (fun p => if p.1 = n then (n, c) else p)
  else
    cols ++ [(n, c)]

theorem map_fst_setColList {R : Type} (cols : List (String × Column R))
    (n : String) (c : Column R) :
    (setColList cols n c).map Prod.fst =
      if n ∈ cols.map Prod.fst then cols.map Prod.fst
      else cols.map Prod.fst ++ [n] := by
  unfold setColList
  split
  · simp only [List.map_map]
    congr 1
    funext p
    by_cases h : p.1 = n <;> simp [h]
  · simp

theorem nodup_setColList {R : Type} (cols : List (String × Column R))
    (n : String) (c : Column R) (h : (cols.map Prod.fst).Nodup) :
    ((setColList cols n c).map Prod.fst).Nodup := by
  rw [map_fst_setColList]
  split
  · exact h
  · rename_i hn
    refine List.Nodup.append h (List.nodup_singleton n) ?_
    intro a ha hb
    rw [List.mem_singleton] at hb
    exact hn (hb ▸ ha)

/-- Keyed column assignment (`dataset[name] = column`). -/
def DataFrame.setCol {R : Type} (df : DataFrame R) (n : String) (c : Column R) :
    DataFrame R :=
  ⟨df.idx, setColList df.cols n c, nodup_setColList _ _ _ df.nodup⟩

/-! ### Python `float()` parsing

`Series.astype(float)` parses each string with Python's `float()` syntax:
optional surrounding whitespace, an optional sign, then either a decimal
literal (digit groups that may contain single underscores between digits, at
most one decimal point, at least one digit, and an optional exponent) or one
of the special forms `inf`, `infinity`, `nan` (case-insensitive).  Finite
values are kept as exact rationals: the rounding of a decimal literal to the
nearest `float64` (including the overflow of a huge literal to infinity) is
the same idealization of floating-point arithmetic the whole embedding
applies.  Whitespace and digits are the ASCII ones. -/

/-- Numeric value of a digit string, most significant digit first. -/
def digitsVal (cs : List Char) : Nat :=
  cs.foldl (fun n c => 10 * n + (c.toNat - 48)) 0

/-- The classification of a successful Python `float(s)`: a finite value, a
signed infinity, or `nan`. -/
inductive PyFloatVal where
  | finite (q : ℚ)
  | infinite (neg : Bool)
  | nan
deriving DecidableEq, Repr

/-- The ASCII whitespace characters stripped by Python `float()`. -/
def isPySpace (c : Char) : Bool :=
  c = ' ' || c = '\t' || c = '\n' || c = '\r' || c = '\x0b' || c = '\x0c'

/-- Strip leading and trailing whitespace. -/
def stripPySpaces (cs : List Char) : List Char :=
  (((cs.dropWhile isPySpace).reverse).dropWhile isPySpace).reverse

/-- Read a digit group: digits that may contain single underscores between
digits.  Returns the digits read (underscores removed) and the rest of the
input; an underscore not enclosed by digits on both sides stays unconsumed. -/
def digitGroupCont : List Char → List Char × List Char
  | [] => ([], [])
  | c :: rest =>
    if c.isDigit then
      (c :: (digitGroupCont rest).1, (digitGroupCont rest).2)
    else if c = '_' then
      match rest with
      | c2 :: rest2 =>
        if c2.isDigit then
          (c2 :: (digitGroupCont rest2).1, (digitGroupCont rest2).2)
        else ([], c :: rest)
      | [] => ([], [c])
    else ([], c :: rest)

/-- A digit group must begin with a digit. -/
def digitGroup (cs : List Char) : Option (List Char × List Char) :=
  match cs with
  | c :: rest => if c.isDigit then some (digitGroupCont (c :: rest)) else none
  | [] => none

/-- Split a leading sign character off, returning whether it was `-`. -/
def signSplitB (cs : List Char) : Bool × List Char :=
  match cs with
  | [] => (false, [])
  | c :: rest =>
    if c = '-' then (true, rest)
    else if c = '+' then (false, rest)
    else (false, c :: rest)

/-- Read the mantissa — `digits [. [digits]]` or `. digits` — returning its
exact rational value and the rest of the input. -/
def pyMantissa (cs : List Char) : Option (ℚ × List Char) :=
  match digitGroup cs with
  | some (ip, rest) =>
    match rest with
    | '.' :: rest2 =>
      match digitGroup rest2 with
      | some (fp, rest3) =>
        some ((digitsVal ip : ℚ) + (digitsVal fp : ℚ) / 10 ^ fp.length, rest3)
      | none => some ((digitsVal ip : ℚ), rest2)
    | _ => some ((digitsVal ip : ℚ), rest)
  | none =>
    match cs with
    | '.' :: rest2 =>
      match digitGroup rest2 with
      | some (fp, rest3) =>
        some ((digitsVal fp : ℚ) / 10 ^ fp.length, rest3)
      | none => none
    | _ => none

/-- Apply the exponent part after `e`/`E`: optional sign then a digit group. -/
def pyExpPart (m : ℚ) (cs : List Char) : Option (ℚ × List Char) :=
  let (neg, cs1) := signSplitB cs
  match digitGroup cs1 with
  | some (ed, rest) =>
    some (if neg then m / 10 ^ digitsVal ed else m * 10 ^ digitsVal ed, rest)
  | none => none

/-- Read a full decimal float literal: mantissa with optional exponent. -/
def pyNumber (cs : List Char) : Option (ℚ × List Char) :=
  match pyMantissa cs with
  | none => none
  | some (m, rest) =>
    match rest with
    | 'e' :: r => pyExpPart m r
    | 'E' :: r => pyExpPart m r
    | _ => some (m, rest)

/-- Parse a string as Python `float(s)`: `none` exactly when `float` raises
`ValueError`, otherwise the finite value, a signed infinity, or `nan`.  The
sign of a `nan` form is discarded, as in Python. -/
def pyFloatVal (s : String) : Option PyFloatVal :=
  let cs := stripPySpaces s.data
  let (neg, cs1) := signSplitB cs
  match pyNumber cs1 with
  | some (m, []) => some (.finite (if neg then -m else m))
  | some (_, _ :: _) => none
  | none =>
    let ls := cs1.map Char.toLower
    if ls = ['i', 'n', 'f'] ∨ ls = ['i', 'n', 'f', 'i', 'n', 'i', 't', 'y'] then
      some (.infinite neg)
    else if ls = ['n', 'a', 'n'] then some PyFloatVal.nan
    else none

/-! ### The currency format of the spec

The following definitions follow the spec's words (§4.1, §8): a currency
text is an optional `$` prefix, digits with optional `,` separators, and an
optional decimal part, and its value is "the floating-point number obtained
by removing every `$` and `,` character and parsing the remainder". -/

/-- Drop an optional leading `$`. -/
def dropDollar (cs : List Char) : List Char :=
  if cs.head? = some '$' then cs.tail else cs

/-- A character allowed in the integer part: a digit or a `,` separator. -/
def digitOrComma (c : Char) : Bool :=
  c.isDigit || c = ','

/-- The currency format of the spec: optional `$` prefix, then digits with
optional `,` separators (at least one digit), then optionally a `.` followed
by digits. -/
def matchesCurrency (s : String) : Bool :=
  let cs1 := dropDollar s.data
  let ip := cs1.takeWhile digitOrComma
  let rest := cs1.dropWhile digitOrComma
  ip.any Char.isDigit &&
    (rest = [] || (rest.head? = some '.' && rest.tail.all Char.isDigit))

/-- Remove every `$` and every `,` character. -/
def stripMoneyChars (cs : List Char) : List Char :=
  (cs.filter (fun c => c ≠ '$')).filter (fun c => c ≠ ',')

/-- The decimal value of a digit string with an optional `.`-separated
fractional part (the spec-side reading of "parsing the remainder"). -/
def decimalValue (cs : List Char) : ℚ :=
  let ip := cs.takeWhile Char.isDigit
  let fp := ((cs.dropWhile Char.isDigit).tail).takeWhile Char.isDigit
  (digitsVal ip : ℚ) + (digitsVal fp : ℚ) / 10 ^ fp.length

/-- The value the spec assigns to a currency text: remove every `$` and `,`
and read the remainder as a decimal number. -/
def specCurrencyValue (s : String) : ℚ :=
  decimalValue (stripMoneyChars s.data)

/-- The expected cell-level result of parsing a currency cell: a text cell
becomes its currency value, anything else (in particular a missing cell)
becomes missing. -/
def parsedCell {R : Type} [Field R] : Cell R → Cell R
  | .str s => .num ((specCurrencyValue s : ℚ) : R)
  | _ => .na

/-- The expected cell-level result of standard scaling against the list of
non-missing values `vals`: a numeric cell `x` becomes
`(x - mean) / sqrt (Σ (y - mean)² / (n - 1))` with `mean = (Σ vals) / n` and
`n` the number of non-missing values (sample standard deviation, `ddof=1`);
anything else becomes missing. -/
noncomputable def scaledCellSpec (vals : List ℝ) : Cell ℝ → Cell ℝ
  | .num x => .num ((x - vals.sum / (vals.length : ℝ)) /
      Real.sqrt (((vals.map (fun y =>
        (y - vals.sum / (vals.length : ℝ)) ^ 2)).sum) /
        ((vals.length : ℝ) - 1)))
  | _ => .na

/-! ### `clean_money_columns` (`src/utilities.py` lines 5–44) -/

/-- Dtypes accepted by the pandas `.str` accessor; on any other dtype the
accessor raises `AttributeError`. -/
def strAccessOk (d : Dtype) : Bool :=
  d = Dtype.object || d = Dtype.string

/-- One cell under `.str.replace(a, "")` with a one-character pattern: every
occurrence of the character is removed from a text cell; a non-text cell
becomes missing (pandas string methods yield `NaN` on non-string elements). -/
def strReplaceCharCell {R : Type} (a : Char) : Cell R → Cell R
  | .str s => .str ⟨s.data.filter (fun c => c ≠ a)⟩
  | _ => .na

/-- `column.str.replace(a, "")` for a one-character pattern `a` (line 32). -/
def strReplaceChar {R : Type} (a : Char) (col : Column R) :
    Except PdError (Column R) :=
  if strAccessOk col.dtype then
    .ok ⟨col.dtype, col.cells.map (strReplaceCharCell a)⟩
  else
    .error .attributeError

/-- One cell under `astype(float)` (line 33): strings are parsed with the
Python `float()` syntax (raising `ValueError` exactly when `float` does); a
string denoting `nan` becomes the missing marker (a float `NaN`), a string
denoting an infinity becomes that infinity; missing stays missing, numbers
and infinities pass through, booleans become 0/1. -/
def astypeFloatCell {R : Type} [Field R] : Cell R → Except PdError (Cell R)
  | .str s =>
    match pyFloatVal s with
    | some (.finite q) => .ok (.num (q : R))
    | some (.infinite b) => .ok (.inf b)
    | some PyFloatVal.nan => .ok .na
    | none => .error .valueError
  | .na => .ok .na
  | .num x => .ok (.num x)
  | .inf b => .ok (.inf b)
  | .bool b => .ok (.num (if b then 1 else 0))

/-- `column.astype(float)` (line 33): the result is a `float64` column. -/
def astypeFloatCol {R : Type} [Field R] (col : Column R) :
    Except PdError (Column R) :=
  (col.cells.mapM astypeFloatCell).map (fun cs => ⟨Dtype.float64, cs⟩)

/-- One cell of `(column == 0).astype('boolean')` (line 35): `NaN == 0` is
false in pandas, so a missing cell yields `false` here. -/
def eqZeroCell {R : Type} [Field R] [DecidableEq R] : Cell R → Cell R
  | .num x => .bool (decide (x = 0))
  | _ => .bool false

/-- One cell of the `.loc[pd.isna(column), ...] = pd.NA` masking (line 36):
positions where the parsed column is missing are overwritten with `pd.NA`. -/
def maskNaCell {R : Type} (orig v : Cell R) : Cell R :=
  match orig with
  | .na => .na
  | _ => v

/-- The indicator column built by lines 35–36 from the parsed float column:
`(column == 0).astype('boolean')` followed by setting `pd.NA` where the
parsed column is missing. -/
def indicatorCol {R : Type} [Field R] [DecidableEq R] (col : Column R) :
    Column R :=
  ⟨Dtype.boolean, col.cells.map (fun c => maskNaCell c (eqZeroCell c))⟩

/-- The additive offset used before taking logarithms (line 29, `eps = 1.`). -/
def eps {R : Type} [Field R] : R := 1

/-- `np.log(column + eps)` (line 38): each numeric cell is replaced by the log
of the cell plus `eps`; missing stays missing (`np.log(NaN) = NaN`);
`np.log(inf + 1)` is `inf` and `np.log(-inf + 1)` is `NaN`. -/
def logCol {R : Type} [Field R] (logFn : R → R) (col : Column R) : Column R :=
  ⟨col.dtype, col.cells.map (fun c =>
    match c with
    | .num x => .num (logFn (x + eps))
    | .inf b => if b then Cell.na else Cell.inf false
    | _ => .na)⟩

/-- The non-missing finite numeric values of a column, in order (pandas
reductions skip missing values; columns holding an infinity, which no claim
involves, are outside the modelled domain of the mean/std reductions). -/
def colVals {R : Type} (col : Column R) : List R :=
  col.cells.filterMap (fun c =>
    match c with
    | .num x => some x
    | _ => none)

/-- `column.mean()`: the mean over the non-missing values. -/
def seriesMean {R : Type} [Field R] (col : Column R) : R :=
  (colVals col).sum / ((colVals col).length : R)

/-- `column.std()`: the sample standard deviation (pandas default `ddof=1`)
over the non-missing values, with `sqrtFn` standing for the square root. -/
def seriesStd {R : Type} [Field R] (sqrtFn : R → R) (col : Column R) : R :=
  sqrtFn ((((colVals col).map (fun x => (x - seriesMean col) ^ 2)).sum) /
    (((colVals col).length : R) - 1))

/-- `(column - column.mean()) / column.std()` (line 40): standard scaling of
each non-missing value; missing stays missing. -/
def scaleCol {R : Type} [Field R] (sqrtFn : R → R) (col : Column R) : Column R :=
  ⟨col.dtype, col.cells.map (fun c =>
    match c with
    | .num x => .num ((x - seriesMean col) / seriesStd sqrtFn col)
    | _ => .na)⟩

/-- Lines 32–33: strip every `$` and every `,` from the text column, then
parse it as a float column. -/
def parseMoneyCol {R : Type} [Field R] (col : Column R) :
    Except PdError (Column R) := do
  let col ← strReplaceChar '$' col
  let col ← strReplaceChar ',' col
  astypeFloatCol col

/-- The body of the loop of `clean_money_columns` (lines 30–41) for a single
column name: columns not named in `money_columns` (and names no longer
present) are left untouched; a money column is stripped of `$` and `,` and
parsed as float (lines 32–33), the zero indicator column is assigned before
any further transform when `indicator` is set (lines 34–36), the log and
scale transforms are applied when their flags are set (lines 37–40), and the
result is written back under the original name (line 41). -/
def moneyStep {R : Type} [Field R] [DecidableEq R] (logFn sqrtFn : R → R)
    (money : List String) (log scale indicator : Bool)
    (df : DataFrame R) (name : String) : Except PdError (DataFrame R) :=
  match df.find name with
  | none => .ok df
  | some col =>
    if name ∈ money then
      match parseMoneyCol col with
      | .error e => .error e
      | .ok parsed =>
        let df1 :=
          if indicator then df.setCol (name ++ "_ind") (indicatorCol parsed)
          else df
        let col1 := if log then logCol logFn parsed else parsed
        let col2 := if scale then scaleCol sqrtFn col1 else col1
        .ok (df1.setCol name col2)
    else .ok df

/-- `clean_money_columns(dataset, money_columns, log, scale, indicator)`
(lines 5–44): iterate over the snapshot of the column names taken at entry
(`dataset.items()` iterates the original column index even though columns are
added during the loop) and apply `moneyStep` to each. -/
def clean_money_columns (R : Type) [Field R] [DecidableEq R]
    (logFn sqrtFn : R → R) (df : DataFrame R) (money : List String)
    (log scale indicator : Bool) : Except PdError (DataFrame R) :=
  df.names.foldlM (moneyStep logFn sqrtFn money log scale indicator) df

/-! ### `clean_types` (`src/utilities.py` lines 47–81) -/

/-- The three column kinds of the classification. -/
inductive Kind where
  | numeric
  | categorical
  | booleanKind
deriving DecidableEq, Repr

/-- The classification of lines 67–74: text/object dtypes are categorical,
else boolean dtypes are boolean, anything else is numeric. -/
def classifyDtype (d : Dtype) : Kind :=
  if d = Dtype.object ∨ d = Dtype.string then Kind.categorical
  else if d = Dtype.bool ∨ d = Dtype.boolean then Kind.booleanKind
  else Kind.numeric

/-- `column.astype('category')` (line 68): the representation switches to the
categorical dtype; the cell values are the same labels. -/
def astypeCategory {R : Type} (col : Column R) : Column R :=
  ⟨Dtype.category, col.cells⟩

/-- The three insertion-ordered buckets built by the loop of `clean_types`. -/
structure Buckets (R : Type) where
  nums : List (String × Column R)
  cats : List (String × Column R)
  bools : List (String × Column R)

/-- One loop iteration of `clean_types` (lines 66–75): insert the column into
the bucket of its kind (categorical columns are converted on the way in). -/
def typeStep {R : Type} (b : Buckets R) (p : String × Column R) : Buckets R :=
  match classifyDtype p.2.dtype with
  | .categorical => { b with cats := b.cats ++ [(p.1, astypeCategory p.2)] }
  | .booleanKind => { b with bools := b.bools ++ [p] }
  | .numeric => { b with nums := b.nums ++ [p] }

/-- The buckets after the full pass over the columns. -/
def typeBuckets {R : Type} (df : DataFrame R) : Buckets R :=
  df.cols.foldl typeStep ⟨[], [], []⟩

theorem typeBuckets_fold_eq {R : Type} (l : List (String × Column R))
    (b : Buckets R) :
    l.foldl typeStep b =
      ⟨b.nums ++ (l.filter (fun p => classifyDtype p.2.dtype = Kind.numeric)),
       b.cats ++ ((l.filter (fun p => classifyDtype p.2.dtype = Kind.categorical)).map
         (fun p => (p.1, astypeCategory p.2))),
       b.bools ++ (l.filter (fun p => classifyDtype p.2.dtype = Kind.booleanKind))⟩ := by
  induction l generalizing b with
  | nil => simp
  | cons p l ih =>
    simp only [List.foldl_cons, ih, List.filter_cons]
    rcases hk : classifyDtype p.2.dtype with _ | _ | _ <;>
      simp [typeStep, hk]

theorem typeBuckets_eq {R : Type} (df : DataFrame R) :
    typeBuckets df =
      ⟨df.cols.filter (fun p => classifyDtype p.2.dtype = Kind.numeric),
       (df.cols.filter (fun p => classifyDtype p.2.dtype = Kind.categorical)).map
         (fun p => (p.1, astypeCategory p.2)),
       df.cols.filter (fun p => classifyDtype p.2.dtype = Kind.booleanKind)⟩ := by
  unfold typeBuckets
  rw [typeBuckets_fold_eq]
  simp

theorem nodup_buckets {R : Type} (df : DataFrame R) :
    ((((typeBuckets df).nums ++ (typeBuckets df).cats) ++
      (typeBuckets df).bools).map Prod.fst).Nodup := by
  rw [typeBuckets_eq]
  have hinj := List.inj_on_of_nodup_map df.nodup
  have hsub : ∀ q : (String × Column R) → Bool,
      ((df.cols.filter q).map Prod.fst).Nodup := fun q =>
    ((df.cols.filter_sublist).map Prod.fst).nodup df.nodup
  have hdisj : ∀ k1 k2 : Kind, k1 ≠ k2 →
      List.Disjoint
        ((df.cols.filter (fun p => classifyDtype p.2.dtype = k1)).map Prod.fst)
        ((df.cols.filter (fun p => classifyDtype p.2.dtype = k2)).map Prod.fst) := by
    intro k1 k2 hk x hxq hxr
    obtain ⟨a, haf, hax⟩ := List.mem_map.mp hxq
    obtain ⟨b, hbf, hbx⟩ := List.mem_map.mp hxr
    obtain ⟨ha, hqa⟩ := List.mem_filter.mp haf
    obtain ⟨hb, hrb⟩ := List.mem_filter.mp hbf
    have hab : a = b := hinj ha hb (by rw [hax, hbx])
    simp only [decide_eq_true_eq] at hqa hrb
    exact hk (by rw [← hqa, hab, hrb])
  simp only [List.map_append, List.map_map]
  have hcomp :
      (Prod.fst ∘ fun p : String × Column R => (p.1, astypeCategory p.2)) =
        Prod.fst := rfl
  rw [hcomp]
  refine List.Nodup.append
    (List.Nodup.append (hsub _) (hsub _)
      (hdisj Kind.numeric Kind.categorical (by decide)))
    (hsub _) ?_
  intro x hx hxb
  rcases List.mem_append.mp hx with hxn | hxc
  · exact hdisj Kind.numeric Kind.booleanKind (by decide) hxn hxb
  · exact hdisj Kind.categorical Kind.booleanKind (by decide) hxc hxb

/-- `clean_types(dataset)` (lines 47–81): classify every column into one of
the three buckets in one pass, then reassemble the dataframe as the numeric
columns, the categorical columns, and the boolean columns, in that order, on
the original row index (lines 76–80). -/
def clean_types {R : Type} (df : DataFrame R) : DataFrame R :=
  ⟨df.idx,
   ((typeBuckets df).nums ++ (typeBuckets df).cats) ++ (typeBuckets df).bools,
   nodup_buckets df⟩

/-! ### Lookup and assignment lemmas -/

theorem listFind_cons_self {R : Type} (n : String) (c : Column R)
    (l : List (String × Column R)) : listFind ((n, c) :: l) n = some c := by
  simp [listFind, List.find?_cons_of_pos]

theorem listFind_cons_ne {R : Type} {m n : String} (c : Column R)
    (l : List (String × Column R)) (h : m ≠ n) :
    listFind ((m, c) :: l) n = listFind l n := by
  simp only [listFind, List.find?]
  rw [show ((m, c).1 == n) = false from beq_eq_false_iff_ne.mpr h]

theorem listFind_append_left {R : Type} (l1 l2 : List (String × Column R))
    (n : String) (h : n ∉ l1.map Prod.fst) :
    listFind (l1 ++ l2) n = listFind l2 n := by
  induction l1 with
  | nil => rfl
  | cons p l1 ih =>
    have hp : p.1 ≠ n := by
      intro he
      exact h (by simp [← he])
    have hn : n ∉ l1.map Prod.fst := fun hm => h (by simp [hm])
    rcases p with ⟨m, c⟩
    rw [List.cons_append, listFind_cons_ne c _ hp, ih hn]

theorem listFind_middle {R : Type} (l1 l2 : List (String × Column R))
    (n : String) (c : Column R) (h : n ∉ l1.map Prod.fst) :
    listFind (l1 ++ (n, c) :: l2) n = some c := by
  rw [listFind_append_left _ _ _ h, listFind_cons_self]

theorem setColList_not_mem {R : Type} (cols : List (String × Column R))
    (n : String) (c : Column R) (h : n ∉ cols.map Prod.fst) :
    setColList cols n c = cols ++ [(n, c)] := by
  simp [setColList, h]

theorem map_keep_of_not_mem {R : Type} (l : List (String × Column R))
    (n : String) (c : Column R) (h : n ∉ l.map Prod.fst) :
    l.map (fun p => if p.1 = n then (n, c) else p) = l := by
  induction l with
  | nil => rfl
  | cons p l ih =>
    have hp : p.1 ≠ n := fun he => h (by simp [← he])
    have h' : n ∉ l.map Prod.fst := fun hm => h (by simp [hm])
    simp only [List.map_cons, if_neg hp, ih h']

theorem setColList_update {R : Type} (l1 l2 : List (String × Column R))
    (n : String) (col c : Column R) (h1 : n ∉ l1.map Prod.fst)
    (h2 : n ∉ l2.map Prod.fst) :
    setColList (l1 ++ (n, col) :: l2) n c = l1 ++ (n, c) :: l2 := by
  have hmem : n ∈ (l1 ++ (n, col) :: l2).map Prod.fst := by simp
  rw [setColList, if_pos hmem, List.map_append, List.map_cons,
    map_keep_of_not_mem _ _ _ h1, map_keep_of_not_mem _ _ _ h2,
    if_pos rfl]

theorem listFind_map_update_ne {R : Type} (cols : List (String × Column R))
    (n n' : String) (c : Column R) (h : n' ≠ n) :
    listFind (cols.map (fun p => if p.1 = n then (n, c) else p)) n' =
      listFind cols n' := by
  induction cols with
  | nil => rfl
  | cons p l ih =>
    rcases p with ⟨m, d⟩
    by_cases hm : m = n
    · subst hm
      have hmap : ((m, d) :: l).map (fun p => if p.1 = m then (m, c) else p) =
          (m, c) :: l.map (fun p => if p.1 = m then (m, c) else p) := by
        simp
      rw [hmap, listFind_cons_ne _ _ (Ne.symm h),
        listFind_cons_ne _ _ (Ne.symm h), ih]
    · simp only [List.map_cons, if_neg hm]
      by_cases hm' : m = n'
      · subst hm'
        rw [listFind_cons_self, listFind_cons_self]
      · rw [listFind_cons_ne _ _ hm', listFind_cons_ne _ _ hm', ih]

theorem listFind_append_single_ne {R : Type} (cols : List (String × Column R))
    (n n' : String) (c : Column R) (h : n' ≠ n) :
    listFind (cols ++ [(n, c)]) n' = listFind cols n' := by
  induction cols with
  | nil => exact listFind_cons_ne _ _ (Ne.symm h)
  | cons p l ih =>
    rcases p with ⟨m, d⟩
    by_cases hm' : m = n'
    · subst hm'
      rw [List.cons_append, listFind_cons_self, listFind_cons_self]
    · rw [List.cons_append, listFind_cons_ne _ _ hm', listFind_cons_ne _ _ hm', ih]

theorem listFind_setColList_ne {R : Type} (cols : List (String × Column R))
    (n n' : String) (c : Column R) (h : n' ≠ n) :
    listFind (setColList cols n c) n' = listFind cols n' := by
  unfold setColList
  split
  · exact listFind_map_update_ne cols n n' c h
  · exact listFind_append_single_ne cols n n' c h

theorem find_setCol_ne {R : Type} (df : DataFrame R) (n n' : String)
    (c : Column R) (h : n' ≠ n) : (df.setCol n c).find n' = df.find n' :=
  listFind_setColList_ne df.cols n n' c h

theorem names_setCol {R : Type} (df : DataFrame R) (n : String) (c : Column R) :
    (df.setCol n c).names =
      if n ∈ df.names then df.names else df.names ++ [n] :=
  map_fst_setColList df.cols n c

theorem self_ne_ind {s : String} : s ≠ s ++ "_ind" := by
  intro h
  have hl := congrArg String.length h
  rw [String.length_append] at hl
  have h4 : ("_ind" : String).length = 4 := rfl
  rw [h4] at hl
  omega

/-! ### Fold lemmas for the money loop -/

theorem foldlM_ok_ind {σ α ε : Type} (step : σ → α → Except ε σ)
    (P : σ → Prop) (l : List α)
    (hstep : ∀ d d' a, a ∈ l → step d a = .ok d' → P d → P d') :
    ∀ d d', l.foldlM step d = .ok d' → P d → P d' := by
  induction l with
  | nil =>
    intro d d' hfold hp
    simp only [List.foldlM_nil] at hfold
    cases hfold
    exact hp
  | cons a l ih =>
    intro d d' hfold hp
    rw [List.foldlM_cons] at hfold
    cases hs : step d a with
    | error e => rw [hs] at hfold; cases hfold
    | ok d1 =>
      rw [hs] at hfold
      exact ih (fun x y b hb => hstep x y b (List.mem_cons_of_mem _ hb))
        d1 d' hfold (hstep d d1 a (List.mem_cons_self a l) hs hp)

theorem moneyStep_not_money {R : Type} [Field R] [DecidableEq R]
    (logFn sqrtFn : R → R) (money : List String) (log scale indicator : Bool)
    (df : DataFrame R) (name : String) (h : name ∉ money) :
    moneyStep logFn sqrtFn money log scale indicator df name = .ok df := by
  unfold moneyStep
  cases hf : df.find name with
  | none => rfl
  | some col => simp [h]

theorem foldlM_money_skip {R : Type} [Field R] [DecidableEq R]
    (logFn sqrtFn : R → R) (money : List String) (log scale indicator : Bool)
    (l1 l2 : List String) (df : DataFrame R) (h : ∀ n ∈ l1, n ∉ money) :
    (l1 ++ l2).foldlM (moneyStep logFn sqrtFn money log scale indicator) df =
      l2.foldlM (moneyStep logFn sqrtFn money log scale indicator) df := by
  induction l1 with
  | nil => rfl
  | cons a l1 ih =>
    rw [List.cons_append, List.foldlM_cons,
      moneyStep_not_money _ _ _ _ _ _ _ _ (h a (List.mem_cons_self a l1))]
    exact ih fun n hn => h n (List.mem_cons_of_mem _ hn)

theorem foldlM_money_all_skip {R : Type} [Field R] [DecidableEq R]
    (logFn sqrtFn : R → R) (money : List String) (log scale indicator : Bool)
    (l : List String) (df : DataFrame R) (h : ∀ n ∈ l, n ∉ money) :
    l.foldlM (moneyStep logFn sqrtFn money log scale indicator) df = .ok df := by
  have := foldlM_money_skip logFn sqrtFn money log scale indicator l [] df h
  rw [List.append_nil] at this
  rw [this]
  rfl

/-! ### The run of `clean_money_columns` on a frame with one money column -/

theorem clean_money_single_error {R : Type} [Field R] [DecidableEq R]
    (logFn sqrtFn : R → R) (money : List String) (log scale indicator : Bool)
    (df : DataFrame R) (cols1 cols2 : List (String × Column R))
    (name : String) (col : Column R) (e : PdError)
    (hcols : df.cols = cols1 ++ (name, col) :: cols2)
    (h1 : ∀ p ∈ cols1, p.1 ∉ money) (hname : name ∈ money)
    (hpipe : parseMoneyCol col = .error e) :
    clean_money_columns R logFn sqrtFn df money log scale indicator =
      .error e := by
  have hnotin1 : name ∉ cols1.map Prod.fst := by
    intro hmem
    obtain ⟨p, hp, hpe⟩ := List.mem_map.mp hmem
    exact h1 p hp (hpe ▸ hname)
  have hfind : df.find name = some col := by
    unfold DataFrame.find
    rw [hcols]
    exact listFind_middle _ _ _ _ hnotin1
  have hstep : moneyStep logFn sqrtFn money log scale indicator df name =
      .error e := by
    unfold moneyStep
    rw [hfind]
    simp only [if_pos hname, hpipe]
  unfold clean_money_columns
  have hnames : df.names = cols1.map Prod.fst ++ name :: cols2.map Prod.fst := by
    unfold DataFrame.names
    rw [hcols, List.map_append, List.map_cons]
  rw [hnames, foldlM_money_skip _ _ _ _ _ _ _ _ _
    (fun n hn => fun hmem => by
      obtain ⟨p, hp, hpe⟩ := List.mem_map.mp hn
      exact h1 p hp (hpe ▸ hmem)),
    List.foldlM_cons, hstep]
  rfl

theorem clean_money_single_ok {R : Type} [Field R] [DecidableEq R]
    (logFn sqrtFn : R → R) (money : List String) (log scale indicator : Bool)
    (df : DataFrame R) (cols1 cols2 : List (String × Column R))
    (name : String) (col parsed : Column R)
    (hcols : df.cols = cols1 ++ (name, col) :: cols2)
    (h1 : ∀ p ∈ cols1, p.1 ∉ money) (h2 : ∀ p ∈ cols2, p.1 ∉ money)
    (hname : name ∈ money)
    (hnind : (name ++ "_ind") ∉ df.names)
    (hpipe : parseMoneyCol col = .ok parsed) :
    ∃ out : DataFrame R,
      clean_money_columns R logFn sqrtFn df money log scale indicator =
        .ok out ∧
      out.idx = df.idx ∧
      out.cols = (cols1 ++
        (name, if scale then
            scaleCol sqrtFn (if log then logCol logFn parsed else parsed)
          else (if log then logCol logFn parsed else parsed)) :: cols2) ++
        (if indicator then [(name ++ "_ind", indicatorCol parsed)] else []) := by
  have hnotin1 : name ∉ cols1.map Prod.fst := by
    intro hmem
    obtain ⟨p, hp, hpe⟩ := List.mem_map.mp hmem
    exact h1 p hp (hpe ▸ hname)
  have hnotin2 : name ∉ cols2.map Prod.fst := by
    intro hmem
    obtain ⟨p, hp, hpe⟩ := List.mem_map.mp hmem
    exact h2 p hp (hpe ▸ hname)
  have hfind : df.find name = some col := by
    unfold DataFrame.find
    rw [hcols]
    exact listFind_middle _ _ _ _ hnotin1
  set col2 : Column R :=
    if scale then scaleCol sqrtFn (if log then logCol logFn parsed else parsed)
    else (if log then logCol logFn parsed else parsed) with hcol2
  set indTail : List (String × Column R) :=
    if indicator then [(name ++ "_ind", indicatorCol parsed)] else []
    with hindTail
  have hnind' : (name ++ "_ind") ∉ df.cols.map Prod.fst := hnind
  -- the frame after the single money step
  have hstep : ∃ df2 : DataFrame R,
      moneyStep logFn sqrtFn money log scale indicator df name = .ok df2 ∧
      df2.idx = df.idx ∧
      df2.cols = (cols1 ++ (name, col2) :: cols2) ++ indTail := by
    refine ⟨(if indicator then
        df.setCol (name ++ "_ind") (indicatorCol parsed) else df).setCol
        name col2, ?_, ?_, ?_⟩
    · unfold moneyStep
      rw [hfind]
      simp only [if_pos hname, hpipe, hcol2]
    · cases indicator <;> rfl
    · have hdf1cols :
          (if indicator then
              df.setCol (name ++ "_ind") (indicatorCol parsed)
            else df).cols = df.cols ++ indTail := by
        cases indicator with
        | false => simp [hindTail]
        | true =>
          simp only [if_pos trivial, hindTail]
          show setColList df.cols _ _ = _
          exact setColList_not_mem _ _ _ hnind'
      show setColList _ name col2 = _
      rw [hdf1cols, hcols]
      have : (cols1 ++ (name, col) :: cols2) ++ indTail =
          cols1 ++ (name, col) :: (cols2 ++ indTail) := by simp
      rw [this]
      have hnotint : name ∉ indTail.map Prod.fst := by
        cases indicator with
        | false => simp [hindTail]
        | true => simpa [hindTail] using self_ne_ind
      have hnotin2' : name ∉ (cols2 ++ indTail).map Prod.fst := by
        rw [List.map_append]
        intro hmem
        rcases List.mem_append.mp hmem with hmem | hmem
        · exact hnotin2 hmem
        · exact hnotint hmem
      rw [setColList_update _ _ _ _ _ hnotin1 hnotin2']
      simp
  obtain ⟨df2, hstepeq, hidx2, hcols2⟩ := hstep
  refine ⟨df2, ?_, hidx2, hcols2⟩
  unfold clean_money_columns
  have hnames : df.names = cols1.map Prod.fst ++ name :: cols2.map Prod.fst := by
    unfold DataFrame.names
    rw [hcols, List.map_append, List.map_cons]
  rw [hnames, foldlM_money_skip _ _ _ _ _ _ _ _ _
    (fun n hn => fun hmem => by
      obtain ⟨p, hp, hpe⟩ := List.mem_map.mp hn
      exact h1 p hp (hpe ▸ hmem)),
    List.foldlM_cons, hstepeq]
  exact foldlM_money_all_skip _ _ _ _ _ _ _ _
    (fun n hn => fun hmem => by
      obtain ⟨p, hp, hpe⟩ := List.mem_map.mp hn
      exact h2 p hp (hpe ▸ hmem))

/-! ### Parsing facts for the currency format -/

theorem takeWhile_all_append (p : Char → Bool) (l1 l2 : List Char)
    (h1 : ∀ c ∈ l1, p c = true)
    (h2 : l2 = [] ∨ ∃ c cs, l2 = c :: cs ∧ p c = false) :
    (l1 ++ l2).takeWhile p = l1 ∧ (l1 ++ l2).dropWhile p = l2 := by
  induction l1 with
  | nil =>
    simp only [List.nil_append]
    rcases h2 with rfl | ⟨c, cs, rfl, hc⟩
    · exact ⟨rfl, rfl⟩
    · rw [List.takeWhile_cons, List.dropWhile_cons, hc]
      exact ⟨rfl, rfl⟩
  | cons a l1 ih =>
    have ha := h1 a (List.mem_cons_self a l1)
    obtain ⟨ht, hd⟩ := ih (fun c hc => h1 c (List.mem_cons_of_mem _ hc))
    rw [List.cons_append, List.takeWhile_cons, List.dropWhile_cons, ha]
    simp only [if_true]
    exact ⟨by rw [ht], by rw [hd]⟩

theorem ne_of_isDigit {c a : Char} (hc : c.isDigit = true)
    (ha : a.isDigit = false) : c ≠ a := by
  intro he
  rw [he, ha] at hc
  cases hc

theorem dropWhile_eq_self_of_all {p : Char → Bool} (l : List Char)
    (h : ∀ c ∈ l, p c = false) : l.dropWhile p = l := by
  cases l with
  | nil => rfl
  | cons a l =>
    rw [List.dropWhile_cons, h a (List.mem_cons_self a l)]
    rfl

theorem stripPySpaces_eq_self (l : List Char)
    (h : ∀ c ∈ l, isPySpace c = false) : stripPySpaces l = l := by
  unfold stripPySpaces
  rw [dropWhile_eq_self_of_all l h,
    dropWhile_eq_self_of_all l.reverse
      (fun c hc => h c (List.mem_reverse.mp hc)),
    List.reverse_reverse]

theorem isPySpace_false_of_isDigit {c : Char} (h : c.isDigit = true) :
    isPySpace c = false := by
  unfold isPySpace
  rw [decide_eq_false (ne_of_isDigit h (by decide) : c ≠ ' '),
    decide_eq_false (ne_of_isDigit h (by decide) : c ≠ '\t'),
    decide_eq_false (ne_of_isDigit h (by decide) : c ≠ '\n'),
    decide_eq_false (ne_of_isDigit h (by decide) : c ≠ '\r'),
    decide_eq_false (ne_of_isDigit h (by decide) : c ≠ '\x0b'),
    decide_eq_false (ne_of_isDigit h (by decide) : c ≠ '\x0c')]
  rfl

theorem signSplitB_cons (c : Char) (t : List Char) (h1 : c ≠ '-')
    (h2 : c ≠ '+') : signSplitB (c :: t) = (false, c :: t) := by
  show (if c = '-' then (true, t)
    else if c = '+' then (false, t) else (false, c :: t)) = (false, c :: t)
  rw [if_neg h1, if_neg h2]

theorem digitGroupCont_cons_digit (a : Char) (l : List Char)
    (h : a.isDigit = true) :
    digitGroupCont (a :: l) =
      (a :: (digitGroupCont l).1, (digitGroupCont l).2) := by
  rw [digitGroupCont.eq_def]
  simp only []
  rw [if_pos h]

theorem digitGroupCont_head_stop (c : Char) (cs : List Char)
    (hd : c.isDigit = false) (hu : c ≠ '_') :
    digitGroupCont (c :: cs) = ([], c :: cs) := by
  rw [digitGroupCont.eq_def]
  simp only []
  rw [if_neg (by rw [hd]; exact Bool.false_ne_true), if_neg hu]

theorem digitGroupCont_all (l1 l2 : List Char)
    (h1 : ∀ c ∈ l1, c.isDigit = true)
    (h2 : l2 = [] ∨ ∃ c cs, l2 = c :: cs ∧ c.isDigit = false ∧ c ≠ '_') :
    digitGroupCont (l1 ++ l2) = (l1, l2) := by
  induction l1 with
  | nil =>
    rcases h2 with rfl | ⟨c, cs, rfl, hd, hu⟩
    · rfl
    · simpa using digitGroupCont_head_stop c cs hd hu
  | cons a l1 ih =>
    rw [List.cons_append,
      digitGroupCont_cons_digit a (l1 ++ l2) (h1 a (List.mem_cons_self a l1)),
      ih (fun c hc => h1 c (List.mem_cons_of_mem _ hc))]

theorem digitGroup_all (l1 l2 : List Char)
    (h0 : l1 ≠ []) (h1 : ∀ c ∈ l1, c.isDigit = true)
    (h2 : l2 = [] ∨ ∃ c cs, l2 = c :: cs ∧ c.isDigit = false ∧ c ≠ '_') :
    digitGroup (l1 ++ l2) = some (l1, l2) := by
  obtain ⟨d, t, rfl⟩ : ∃ d t, l1 = d :: t := by
    cases l1 with
    | nil => exact absurd rfl h0
    | cons d t => exact ⟨d, t, rfl⟩
  rw [List.cons_append]
  show (if d.isDigit = true then some (digitGroupCont (d :: (t ++ l2)))
    else none) = _
  rw [if_pos (h1 d (List.mem_cons_self d t)), ← List.cons_append,
    digitGroupCont_all (d :: t) l2 h1 h2]

theorem pyNumber_wellformed (ipd rest : List Char)
    (hipd : ∀ c ∈ ipd, c.isDigit = true) (hne : ipd ≠ [])
    (hrest : rest = [] ∨ ∃ fp, rest = '.' :: fp ∧ ∀ c ∈ fp, c.isDigit = true) :
    pyNumber (ipd ++ rest) = some (decimalValue (ipd ++ rest), []) := by
  have hspan := takeWhile_all_append Char.isDigit ipd rest hipd
    (by
      rcases hrest with rfl | ⟨fp, rfl, hfp⟩
      · exact Or.inl rfl
      · exact Or.inr ⟨'.', fp, rfl, by decide⟩)
  have hdg : digitGroup (ipd ++ rest) = some (ipd, rest) :=
    digitGroup_all ipd rest hne hipd
      (by
        rcases hrest with rfl | ⟨fp, rfl, hfp⟩
        · exact Or.inl rfl
        · exact Or.inr ⟨'.', fp, rfl, by decide, by decide⟩)
  rcases hrest with rfl | ⟨fp, rfl, hfp⟩
  · have hm : pyMantissa (ipd ++ []) = some ((digitsVal ipd : ℚ), []) := by
      unfold pyMantissa
      rw [hdg]
    have hn : pyNumber (ipd ++ []) = some ((digitsVal ipd : ℚ), []) := by
      unfold pyNumber
      rw [hm]
    rw [hn]
    unfold decimalValue
    simp only [hspan.1, hspan.2, List.tail_nil, List.takeWhile_nil,
      List.length_nil, pow_zero]
    norm_num [digitsVal]
  · have hm : pyMantissa (ipd ++ '.' :: fp) =
        some ((digitsVal ipd : ℚ) + (digitsVal fp : ℚ) / 10 ^ fp.length, []) := by
      cases fp with
      | nil =>
        unfold pyMantissa
        rw [hdg]
        norm_num [digitsVal, digitGroup]
      | cons f0 fp' =>
        have hdgfp : digitGroup (f0 :: fp') = some (f0 :: fp', []) := by
          simpa using digitGroup_all (f0 :: fp') [] (by simp) hfp (Or.inl rfl)
        unfold pyMantissa
        rw [hdg]
        show (match digitGroup (f0 :: fp') with
          | some (fp2, rest3) =>
            some ((digitsVal ipd : ℚ) + (digitsVal fp2 : ℚ) / 10 ^ fp2.length,
              rest3)
          | none => some ((digitsVal ipd : ℚ), f0 :: fp')) = _
        rw [hdgfp]
    have hn : pyNumber (ipd ++ '.' :: fp) =
        some ((digitsVal ipd : ℚ) + (digitsVal fp : ℚ) / 10 ^ fp.length, []) := by
      unfold pyNumber
      rw [hm]
    have hfpspan := takeWhile_all_append Char.isDigit fp [] hfp (Or.inl rfl)
    rw [List.append_nil] at hfpspan
    rw [hn]
    unfold decimalValue
    simp only [hspan.1, hspan.2, List.tail_cons, hfpspan.1]

theorem strip_shape_of_matches (s : String) (h : matchesCurrency s = true) :
    ∃ ipd rest, stripMoneyChars s.data = ipd ++ rest ∧
      (∀ c ∈ ipd, c.isDigit = true) ∧ ipd ≠ [] ∧
      (rest = [] ∨ ∃ fp, rest = '.' :: fp ∧ ∀ c ∈ fp, c.isDigit = true) := by
  simp only [matchesCurrency, Bool.and_eq_true, Bool.or_eq_true] at h
  obtain ⟨hany, hrest⟩ := h
  set cs1 := dropDollar s.data with hcs1def
  set ip := cs1.takeWhile digitOrComma with hipdef
  set rest := cs1.dropWhile digitOrComma with hrestdef
  have hcs1split : ip ++ rest = cs1 :=
    List.takeWhile_append_dropWhile digitOrComma cs1
  have hipP : ∀ c ∈ ip, digitOrComma c = true := fun c hc =>
    List.mem_takeWhile_imp hc
  have hrestshape :
      rest = [] ∨ ∃ fp, rest = '.' :: fp ∧ ∀ c ∈ fp, c.isDigit = true := by
    rcases hrest with hr | hr
    · exact Or.inl (by simpa using hr)
    · obtain ⟨hh, ha⟩ := hr
      cases hre : rest with
      | nil => rw [hre] at hh; simp at hh
      | cons c fp =>
        rw [hre] at hh ha
        have hc : c = '.' := by simpa using hh
        subst hc
        refine Or.inr ⟨fp, rfl, fun c hc => ?_⟩
        simpa using List.all_eq_true.mp (by simpa using ha) c hc
  clear_value rest
  clear_value ip
  clear_value cs1
  have hnoDollar : ∀ c ∈ cs1, c ≠ '$' := by
    intro c hc
    rw [← hcs1split] at hc
    rcases List.mem_append.mp hc with hc | hc
    · have := hipP c hc
      rw [digitOrComma, Bool.or_eq_true] at this
      rcases this with hd | hcm
      · exact ne_of_isDigit hd (by decide)
      · have : c = ',' := by simpa using hcm
        subst this
        decide
    · rcases hrestshape with he | ⟨fp, hfp, hfpd⟩
      · rw [he] at hc; cases hc
      · rw [hfp] at hc
        rcases List.mem_cons.mp hc with rfl | hc
        · decide
        · exact ne_of_isDigit (hfpd c hc) (by decide)
  have hnoCommaRest : ∀ c ∈ rest, c ≠ ',' := by
    intro c hc
    rcases hrestshape with he | ⟨fp, hfp, hfpd⟩
    · rw [he] at hc; cases hc
    · rw [hfp] at hc
      rcases List.mem_cons.mp hc with rfl | hc
      · decide
      · exact ne_of_isDigit (hfpd c hc) (by decide)
  have hfilterDollar : s.data.filter (fun c => c ≠ '$') = cs1 := by
    have hcs1filter : cs1.filter (fun c => c ≠ '$') = cs1 :=
      List.filter_eq_self.mpr (fun a ha => by simpa using hnoDollar a ha)
    by_cases hh : s.data.head? = some '$'
    · cases hsd : s.data with
      | nil => rw [hsd] at hh; simp at hh
      | cons c t =>
        rw [hsd] at hh
        have hc : c = '$' := by simpa using hh
        subst hc
        have hcs1t : cs1 = t := by
          rw [hcs1def, hsd, dropDollar, if_pos (by simp)]
          rfl
        rw [hcs1t]
        rw [hcs1t] at hcs1filter
        simpa using hcs1filter
    · have hcs1s : cs1 = s.data := by
        rw [hcs1def, dropDollar, if_neg hh]
      rw [hcs1s]
      rw [hcs1s] at hcs1filter
      exact hcs1filter
  refine ⟨ip.filter (fun c => c ≠ ','), rest, ?_, ?_, ?_, hrestshape⟩
  · rw [stripMoneyChars, hfilterDollar, ← hcs1split, List.filter_append]
    congr 1
    exact List.filter_eq_self.mpr (fun a ha => by simpa using hnoCommaRest a ha)
  · intro c hc
    obtain ⟨hcip, hcne⟩ := List.mem_filter.mp hc
    have := hipP c hcip
    rw [digitOrComma, Bool.or_eq_true] at this
    rcases this with hd | hcm
    · exact hd
    · exact absurd (by simpa using hcm) (by simpa using hcne)
  · obtain ⟨c, hcip, hcd⟩ := List.any_eq_true.mp hany
    have hcd : c.isDigit = true := by simpa using hcd
    have : c ∈ ip.filter (fun c => c ≠ ',') :=
      List.mem_filter.mpr ⟨hcip, by simpa using ne_of_isDigit hcd (by decide)⟩
    exact List.ne_nil_of_mem this

theorem pyFloatVal_mk_wellformed (ipd rest : List Char)
    (hipd : ∀ c ∈ ipd, c.isDigit = true) (hne : ipd ≠ [])
    (hrest : rest = [] ∨ ∃ fp, rest = '.' :: fp ∧ ∀ c ∈ fp, c.isDigit = true) :
    pyFloatVal ⟨ipd ++ rest⟩ =
      some (PyFloatVal.finite (decimalValue (ipd ++ rest))) := by
  obtain ⟨d, t, rfl⟩ : ∃ d t, ipd = d :: t := by
    cases ipd with
    | nil => exact absurd rfl hne
    | cons d t => exact ⟨d, t, rfl⟩
  have hd := hipd d (List.mem_cons_self d t)
  have hnosp : ∀ c ∈ (d :: t) ++ rest, isPySpace c = false := by
    intro c hc
    rcases List.mem_append.mp hc with hc | hc
    · exact isPySpace_false_of_isDigit (hipd c hc)
    · rcases hrest with rfl | ⟨fp, rfl, hfp⟩
      · cases hc
      · rcases List.mem_cons.mp hc with rfl | hc
        · decide
        · exact isPySpace_false_of_isDigit (hfp c hc)
  have h1 : stripPySpaces ((d :: t) ++ rest) = (d :: t) ++ rest :=
    stripPySpaces_eq_self _ hnosp
  have h2 : signSplitB ((d :: t) ++ rest) = (false, (d :: t) ++ rest) := by
    rw [List.cons_append]
    exact signSplitB_cons _ _ (ne_of_isDigit hd (by decide))
      (ne_of_isDigit hd (by decide))
  have h3 : pyNumber ((d :: t) ++ rest) =
      some (decimalValue ((d :: t) ++ rest), []) :=
    pyNumber_wellformed (d :: t) rest hipd (by simp) hrest
  simp only [pyFloatVal, h1, h2, h3, Bool.false_eq_true, if_false]

theorem pyFloatVal_strip_of_matches (s : String) (h : matchesCurrency s = true) :
    pyFloatVal ⟨stripMoneyChars s.data⟩ =
      some (PyFloatVal.finite (specCurrencyValue s)) := by
  obtain ⟨ipd, rest, heq, hipd, hne, hrest⟩ := strip_shape_of_matches s h
  rw [show (⟨stripMoneyChars s.data⟩ : String) = (⟨ipd ++ rest⟩ : String) from
      congrArg String.mk heq,
    specCurrencyValue, heq]
  exact pyFloatVal_mk_wellformed ipd rest hipd hne hrest

theorem specCurrencyValue_eval (s : String) (ip fp k : ℕ)
    (h1 : digitsVal ((stripMoneyChars s.data).takeWhile Char.isDigit) = ip)
    (h2 : digitsVal ((((stripMoneyChars s.data).dropWhile
      Char.isDigit).tail).takeWhile Char.isDigit) = fp)
    (h3 : ((((stripMoneyChars s.data).dropWhile
      Char.isDigit).tail).takeWhile Char.isDigit).length = k) :
    specCurrencyValue s = (ip : ℚ) + (fp : ℚ) / 10 ^ k := by
  simp only [specCurrencyValue, decimalValue]
  rw [h1, h2, h3]

/-! ### Behaviour of `parseMoneyCol` -/

theorem parseMoneyCol_eq {R : Type} [Field R] (col : Column R)
    (h : strAccessOk col.dtype = true) :
    parseMoneyCol col =
      ((col.cells.map (fun c =>
        strReplaceCharCell ',' (strReplaceCharCell '$' c))).mapM
          astypeFloatCell).map (fun cs => (⟨Dtype.float64, cs⟩ : Column R)) := by
  unfold parseMoneyCol strReplaceChar
  rw [if_pos h]
  show ((strReplaceChar ',' ⟨col.dtype, _⟩ : Except PdError (Column R)) >>=
    astypeFloatCol) = _
  rw [strReplaceChar, if_pos h]
  show astypeFloatCol ⟨col.dtype, _⟩ = _
  rw [astypeFloatCol, List.map_map]
  rfl

theorem astypeFloatCell_error_eq {R : Type} [Field R] (c : Cell R)
    (e : PdError) (h : astypeFloatCell c = .error e) : e = .valueError := by
  cases c with
  | str s =>
    rw [show astypeFloatCell (Cell.str s : Cell R) = (match pyFloatVal s with
      | some (.finite q) => Except.ok (Cell.num (q : R))
      | some (.infinite b) => Except.ok (Cell.inf b : Cell R)
      | some PyFloatVal.nan => Except.ok (Cell.na : Cell R)
      | none => Except.error PdError.valueError) from rfl] at h
    cases hp : pyFloatVal s with
    | some v =>
      rw [hp] at h
      cases v with
      | finite q => simp at h
      | infinite b => simp at h
      | nan => simp at h
    | none =>
      rw [hp] at h
      injection h with h1
      exact h1.symm
  | num x => simp [astypeFloatCell] at h
  | inf b => simp [astypeFloatCell] at h
  | bool b => simp [astypeFloatCell] at h
  | na => simp [astypeFloatCell] at h

theorem mapM_astype_error {R : Type} [Field R] (cells : List (Cell R)) :
    (∃ c ∈ cells, ∃ e, astypeFloatCell c = Except.error e) →
      cells.mapM astypeFloatCell = .error .valueError := by
  induction cells with
  | nil =>
    intro h
    obtain ⟨c, hc, _⟩ := h
    simp at hc
  | cons a l ih =>
    intro h
    rw [List.mapM_cons]
    cases ha : astypeFloatCell a with
    | error e =>
      have he : e = .valueError := astypeFloatCell_error_eq a e ha
      subst he
      rfl
    | ok b =>
      obtain ⟨c, hc, e, hce⟩ := h
      rcases List.mem_cons.mp hc with rfl | hc
      · rw [ha] at hce; simp at hce
      · show (l.mapM astypeFloatCell >>= fun xs =>
          pure (b :: xs) : Except PdError (List (Cell R))) =
          Except.error PdError.valueError
        rw [ih ⟨c, hc, e, hce⟩]
        rfl

theorem mapM_astype_matches {R : Type} [Field R] (cells : List (Cell R))
    (hc : ∀ c ∈ cells,
      (∃ s, c = .str s ∧ matchesCurrency s = true) ∨ c = .na) :
    ((cells.map (fun c =>
      strReplaceCharCell ',' (strReplaceCharCell '$' c))).mapM
        astypeFloatCell) =
      .ok (cells.map parsedCell) := by
  induction cells with
  | nil => rfl
  | cons a l ih =>
    have ha := hc a (List.mem_cons_self a l)
    have ihl := ih (fun c hcl => hc c (List.mem_cons_of_mem _ hcl))
    rw [List.map_cons, List.mapM_cons]
    rcases ha with ⟨s, rfl, hm⟩ | rfl
    · have hcell : astypeFloatCell (strReplaceCharCell ','
          (strReplaceCharCell '$' (Cell.str s)) : Cell R) =
          .ok (.num ((specCurrencyValue s : ℚ) : R)) := by
        show (match pyFloatVal (⟨stripMoneyChars s.data⟩ : String) with
          | some (.finite q) => Except.ok (Cell.num (q : R))
          | some (.infinite b) => Except.ok (Cell.inf b : Cell R)
          | some PyFloatVal.nan => Except.ok (Cell.na : Cell R)
          | none => Except.error PdError.valueError) = _
        rw [pyFloatVal_strip_of_matches s hm]
      rw [hcell]
      show (((l.map (fun c => strReplaceCharCell ','
        (strReplaceCharCell '$' c))).mapM astypeFloatCell) >>= fun xs =>
        pure (Cell.num ((specCurrencyValue s : ℚ) : R) :: xs) :
          Except PdError (List (Cell R))) = _
      rw [ihl]
      rfl
    · show ((Except.ok (Cell.na : Cell R)) >>= _ :
        Except PdError (List (Cell R))) = _
      show (((l.map (fun c => strReplaceCharCell ','
        (strReplaceCharCell '$' c))).mapM astypeFloatCell) >>= fun xs =>
        pure ((Cell.na : Cell R) :: xs) :
          Except PdError (List (Cell R))) = _
      rw [ihl]
      rfl

theorem parseMoneyCol_matches_ok {R : Type} [Field R] (col : Column R)
    (hd : strAccessOk col.dtype = true)
    (hc : ∀ c ∈ col.cells,
      (∃ s, c = .str s ∧ matchesCurrency s = true) ∨ c = .na) :
    parseMoneyCol col = .ok ⟨Dtype.float64, col.cells.map parsedCell⟩ := by
  rw [parseMoneyCol_eq col hd, mapM_astype_matches col.cells hc]
  rfl

theorem parseMoneyCol_bad_cell {R : Type} [Field R] (col : Column R)
    (hd : strAccessOk col.dtype = true) (s : String)
    (hs : Cell.str s ∈ col.cells)
    (hbad : pyFloatVal ⟨stripMoneyChars s.data⟩ = none) :
    parseMoneyCol col = .error .valueError := by
  rw [parseMoneyCol_eq col hd]
  rw [mapM_astype_error _ ⟨Cell.str ⟨stripMoneyChars s.data⟩, ?_, .valueError, ?_⟩]
  · rfl
  · have : strReplaceCharCell ',' (strReplaceCharCell '$' (Cell.str s) : Cell R) =
        Cell.str ⟨stripMoneyChars s.data⟩ := rfl
    exact this ▸ List.mem_map_of_mem _ hs
  · show (match pyFloatVal (⟨stripMoneyChars s.data⟩ : String) with
      | some (.finite q) => Except.ok (Cell.num (q : R))
      | some (.infinite b) => Except.ok (Cell.inf b : Cell R)
      | some PyFloatVal.nan => Except.ok (Cell.na : Cell R)
      | none => Except.error PdError.valueError) = _
    rw [hbad]

theorem parseMoneyCol_attr {R : Type} [Field R] (col : Column R)
    (hd : strAccessOk col.dtype = false) :
    parseMoneyCol col = .error .attributeError := by
  unfold parseMoneyCol strReplaceChar
  rw [if_neg (by rw [hd]; exact Bool.false_ne_true)]
  rfl

theorem listFind_mem {R : Type} (cols : List (String × Column R)) (n : String)
    (c : Column R) (h : listFind cols n = some c) : n ∈ cols.map Prod.fst := by
  induction cols with
  | nil => cases h
  | cons p l ih =>
    rcases p with ⟨m, d⟩
    by_cases hm : m = n
    · subst hm
      simp
    · rw [listFind_cons_ne _ _ hm] at h
      simp only [List.map_cons, List.mem_cons]
      exact Or.inr (ih h)

theorem moneyStep_preserves_find {R : Type} [Field R] [DecidableEq R]
    (logFn sqrtFn : R → R) (money : List String) (log scale indicator : Bool)
    (d d' : DataFrame R) (a n : String)
    (hstep : moneyStep logFn sqrtFn money log scale indicator d a = .ok d')
    (hn1 : n ≠ a) (hn2 : n ≠ a ++ "_ind") :
    d'.find n = d.find n := by
  unfold moneyStep at hstep
  cases hf : d.find a with
  | none =>
    rw [hf] at hstep
    injection hstep with h
    rw [← h]
  | some c =>
    rw [hf] at hstep
    by_cases hm : a ∈ money
    · simp only [if_pos hm] at hstep
      cases hp : parseMoneyCol c with
      | error e => rw [hp] at hstep; exact absurd hstep (by simp)
      | ok parsed =>
        rw [hp] at hstep
        injection hstep with h
        rw [← h]
        have hd1 : ((if indicator then
            d.setCol (a ++ "_ind") (indicatorCol parsed) else d)).find n =
            d.find n := by
          cases indicator
          · rfl
          · exact find_setCol_ne d (a ++ "_ind") n (indicatorCol parsed) hn2
        rw [find_setCol_ne _ _ _ _ hn1, hd1]
    · simp only [if_neg hm] at hstep
      injection hstep with h
      rw [← h]

theorem moneyStep_names_subset {R : Type} [Field R] [DecidableEq R]
    (logFn sqrtFn : R → R) (money : List String) (log scale indicator : Bool)
    (d d' : DataFrame R) (a : String)
    (hstep : moneyStep logFn sqrtFn money log scale indicator d a = .ok d') :
    ∀ x ∈ d'.names, x ∈ d.names ∨ x = a ++ "_ind" := by
  unfold moneyStep at hstep
  cases hf : d.find a with
  | none =>
    rw [hf] at hstep
    injection hstep with h
    rw [← h]
    exact fun x hx => Or.inl hx
  | some c =>
    rw [hf] at hstep
    by_cases hm : a ∈ money
    · simp only [if_pos hm] at hstep
      cases hp : parseMoneyCol c with
      | error e => rw [hp] at hstep; exact absurd hstep (by simp)
      | ok parsed =>
        rw [hp] at hstep
        injection hstep with h
        rw [← h]
        intro x hx
        have hamem : a ∈ d.names := listFind_mem d.cols a c hf
        set d1 : DataFrame R :=
          if indicator then d.setCol (a ++ "_ind") (indicatorCol parsed)
          else d with hd1def
        have hd1names : ∀ y, y ∈ d1.names → y ∈ d.names ∨ y = a ++ "_ind" := by
          intro y hy
          rw [hd1def] at hy
          cases indicator with
          | false =>
            rw [if_neg Bool.false_ne_true] at hy
            exact Or.inl hy
          | true =>
            rw [if_pos rfl] at hy
            rw [names_setCol] at hy
            split at hy
            · exact Or.inl hy
            · rcases List.mem_append.mp hy with hy | hy
              · exact Or.inl hy
              · exact Or.inr (by simpa using hy)
        have hx' : x ∈ (setColList d1.cols a _).map Prod.fst := hx
        rw [map_fst_setColList] at hx'
        split at hx'
        · exact hd1names x hx'
        · rcases List.mem_append.mp hx' with hy | hy
          · exact hd1names x hy
          · have hxa : x = a := by simpa using hy
            subst hxa
            exact Or.inl hamem
    · simp only [if_neg hm] at hstep
      injection hstep with h
      rw [← h]
      exact fun x hx => Or.inl hx

/-! ### Concrete dataframes used by the claims -/

/-- A one-column money frame whose single text value is the empty string. -/
def dfC1 : DataFrame ℝ :=
  ⟨[0], [("a", ⟨Dtype.object, [Cell.str ""]⟩)], by decide⟩

/-- A one-column money frame whose single text value is unparseable. -/
def dfC1w : DataFrame ℚ :=
  ⟨[0], [("a", ⟨Dtype.object, [Cell.str "x"]⟩)], by decide⟩

/-- The spec §8 example column `["$0", "$5.00", "", "$0"]`. -/
def dfC2 : DataFrame ℝ :=
  ⟨[0, 1, 2, 3],
   [("a", ⟨Dtype.object,
     [Cell.str "$0", Cell.str "$5.00", Cell.str "", Cell.str "$0"]⟩)],
   by decide⟩

/-- The §8 example column with the empty string replaced by a missing value. -/
def dfC2ex : DataFrame ℝ :=
  ⟨[0, 1, 2, 3],
   [("a", ⟨Dtype.object,
     [Cell.str "$0", Cell.str "$5.00", Cell.na, Cell.str "$0"]⟩)],
   by decide⟩

/-- A two-cell money column holding `"$0"` and a missing value. -/
def dfC2w : DataFrame ℚ :=
  ⟨[0, 1], [("a", ⟨Dtype.object, [Cell.str "$0", Cell.na]⟩)], by decide⟩

/-- A one-column money frame holding the text `"$1"`. -/
def dfC3a : DataFrame ℝ :=
  ⟨[0], [("a", ⟨Dtype.object, [Cell.str "$1"]⟩)], by decide⟩

/-- A money frame whose money column is already numeric. -/
def dfC3w : DataFrame ℚ :=
  ⟨[0], [("m", ⟨Dtype.float64, [Cell.num 2]⟩)], by decide⟩

/-- A two-cell money column in the currency format, with a missing value. -/
def dfC4w : DataFrame ℚ :=
  ⟨[0, 1], [("a", ⟨Dtype.object, [Cell.str "$1,234.50", Cell.na]⟩)], by decide⟩

/-- The scale example: a money column parsing to `[1.0, 2.0, 3.0]`. -/
def dfC5ex : DataFrame ℝ :=
  ⟨[0, 1, 2],
   [("a", ⟨Dtype.object, [Cell.str "1", Cell.str "2", Cell.str "3"]⟩)],
   by decide⟩

/-- The log example column `["$0", "$1"]`. -/
def dfC6ex : DataFrame ℝ :=
  ⟨[0, 1], [("a", ⟨Dtype.object, [Cell.str "$0", Cell.str "$1"]⟩)], by decide⟩

/-- A frame where a non-money column already bears the name `a_ind`. -/
def dfC7 : DataFrame ℝ :=
  ⟨[0],
   [("a", ⟨Dtype.object, [Cell.na]⟩),
    ("a_ind", ⟨Dtype.object, [Cell.str "x"]⟩)],
   by decide⟩

/-- A frame with a single non-money text column. -/
def dfC7w : DataFrame ℚ :=
  ⟨[0], [("b", ⟨Dtype.object, [Cell.str "hello"]⟩)], by decide⟩

/-- The `clean_types` example frame: columns `[text, int, bool, float]`. -/
def dfC8ex : DataFrame ℚ :=
  ⟨[0],
   [("t", ⟨Dtype.object, [Cell.str "x"]⟩),
    ("i", ⟨Dtype.int64, [Cell.num 1]⟩),
    ("b", ⟨Dtype.bool, [Cell.bool true]⟩),
    ("f", ⟨Dtype.float64, [Cell.num 1]⟩)],
   by decide⟩

/-! ### Claims -/

/-- C1, counterexample: on a money column containing the empty string,
`clean_money_columns` raises `ValueError` (from `astype(float)`) instead of
producing a missing value, so the claim that no fault is ever raised for an
unparseable text value is false. -/
theorem claim_C1_counterexample :
    clean_money_columns ℝ Real.log Real.sqrt dfC1 ["a"] false false true =
      .error PdError.valueError := rfl

/-- C1, amended: whenever a money column (of a text dtype) contains a text
value that Python `float()` rejects after stripping `$` and `,` — the empty
string included — `clean_money_columns` raises a `ValueError` fault; the
failure does not surface as a missing value. -/
theorem claim_C1_amended (R : Type) [Field R] [DecidableEq R]
    (logFn sqrtFn : R → R) (money : List String) (log scale indicator : Bool)
    (df : DataFrame R) (cols1 cols2 : List (String × Column R))
    (name : String) (col : Column R) (s : String)
    (hcols : df.cols = cols1 ++ (name, col) :: cols2)
    (h1 : ∀ p ∈ cols1, p.1 ∉ money)
    (hname : name ∈ money)
    (hdtype : strAccessOk col.dtype = true)
    (hs : Cell.str s ∈ col.cells)
    (hbad : pyFloatVal ⟨stripMoneyChars s.data⟩ = none) :
    clean_money_columns R logFn sqrtFn df money log scale indicator =
      .error PdError.valueError :=
  clean_money_single_error logFn sqrtFn money log scale indicator df
    cols1 cols2 name col PdError.valueError hcols h1 hname
    (parseMoneyCol_bad_cell col hdtype s hs hbad)

/-- C1, witness: the amended theorem applied to a concrete frame whose money
column holds the unparseable text `"x"`. -/
theorem claim_C1_amended_witness :
    clean_money_columns ℚ id id dfC1w ["a"] true true true =
      .error PdError.valueError :=
  claim_C1_amended ℚ id id ["a"] true true true dfC1w [] []
    "a" ⟨Dtype.object, [Cell.str "x"]⟩ "x" rfl (by simp) (by simp)
    (by decide) (by simp) (by decide)

/-- C3, counterexample: running `clean_money_columns` on `["$1"]` yields a
numeric money column (and its indicator column); running it a second time on
that very result raises `AttributeError` (the `.str` accessor rejects the
`float64` column), so the second run does not succeed. -/
theorem claim_C3_counterexample :
    Except.map (fun out => (out.idx, out.cols))
      (clean_money_columns ℝ Real.log Real.sqrt dfC3a ["a"] false false true) =
      .ok ([0], [("a", ⟨Dtype.float64, [Cell.num ((1 : ℚ) : ℝ)]⟩),
        ("a_ind", ⟨Dtype.boolean, [Cell.bool false]⟩)]) ∧
    clean_money_columns ℝ Real.log Real.sqrt
      ⟨[0], [("a", ⟨Dtype.float64, [Cell.num ((1 : ℚ) : ℝ)]⟩),
        ("a_ind", ⟨Dtype.boolean, [Cell.bool false]⟩)], by decide⟩
      ["a"] false false true = .error PdError.attributeError := by
  constructor
  · obtain ⟨out, hout, hidx, hcols⟩ :=
      clean_money_single_ok Real.log Real.sqrt ["a"] false false true dfC3a
        [] [] "a" ⟨Dtype.object, [Cell.str "$1"]⟩
        ⟨Dtype.float64, [Cell.num ((specCurrencyValue "$1" : ℚ) : ℝ)]⟩
        rfl (by simp) (by simp) (by simp) (by decide)
        (parseMoneyCol_matches_ok _ rfl (by
          intro c hc
          simp only [List.mem_singleton] at hc
          exact Or.inl ⟨"$1", hc, by decide⟩))
    have hval : (specCurrencyValue "$1" : ℚ) = 1 := by
      rw [specCurrencyValue_eval "$1" 1 0 0 (by decide) (by decide) (by decide)]
      norm_num
    rw [hout]
    rw [hval] at hcols
    have hdec : decide (((1 : ℚ) : ℝ) = 0) = false :=
      decide_eq_false (by norm_num)
    simp [Except.map, hidx, hcols, indicatorCol, maskNaCell, eqZeroCell, hdec,
      dfC3a]
  · rfl

/-- C3, amended: re-running `clean_money_columns` on a dataset whose money
column already holds the numeric (`float64`) results of a first run does not
succeed: the `.str` accessor of the stripping step raises `AttributeError` on
a non-text column. -/
theorem claim_C3_amended (R : Type) [Field R] [DecidableEq R]
    (logFn sqrtFn : R → R) (money : List String) (log scale indicator : Bool)
    (df : DataFrame R) (cols1 cols2 : List (String × Column R))
    (name : String) (col : Column R)
    (hcols : df.cols = cols1 ++ (name, col) :: cols2)
    (h1 : ∀ p ∈ cols1, p.1 ∉ money)
    (hname : name ∈ money)
    (hdtype : col.dtype = Dtype.float64) :
    clean_money_columns R logFn sqrtFn df money log scale indicator =
      .error PdError.attributeError :=
  clean_money_single_error logFn sqrtFn money log scale indicator df
    cols1 cols2 name col PdError.attributeError hcols h1 hname
    (parseMoneyCol_attr col (by rw [hdtype]; rfl))

/-- C3, witness: the amended theorem applied to a concrete frame whose money
column is already numeric. -/
theorem claim_C3_amended_witness :
    clean_money_columns ℚ id id dfC3w ["m"] false false true =
      .error PdError.attributeError :=
  claim_C3_amended ℚ id id ["m"] false false true dfC3w [] []
    "m" ⟨Dtype.float64, [Cell.num 2]⟩ rfl (by simp) (by simp) rfl

/-- C4: every text value of a money column that matches the currency format
(optional `$` prefix, optional `,` separators, digits, optional decimal
part) is replaced, with `log=false, scale=false`, by the number obtained by
removing every `$` and `,` character and parsing the remainder as a decimal
(`specCurrencyValue`); missing values stay missing. -/
theorem claim_C4 (R : Type) [Field R] [DecidableEq R]
    (logFn sqrtFn : R → R) (money : List String) (indicator : Bool)
    (df : DataFrame R) (cols1 cols2 : List (String × Column R))
    (name : String) (col : Column R)
    (hcols : df.cols = cols1 ++ (name, col) :: cols2)
    (h1 : ∀ p ∈ cols1, p.1 ∉ money) (h2 : ∀ p ∈ cols2, p.1 ∉ money)
    (hname : name ∈ money)
    (hnind : (name ++ "_ind") ∉ df.names)
    (hdtype : strAccessOk col.dtype = true)
    (hcells : ∀ c ∈ col.cells,
      (∃ s, c = .str s ∧ matchesCurrency s = true) ∨ c = .na) :
    ∃ out : DataFrame R,
      clean_money_columns R logFn sqrtFn df money false false indicator =
        .ok out ∧
      out.find name = some ⟨Dtype.float64, col.cells.map parsedCell⟩ := by
  obtain ⟨out, hout, hidx, hcols2⟩ :=
    clean_money_single_ok logFn sqrtFn money false false indicator df
      cols1 cols2 name col _ hcols h1 h2 hname hnind
      (parseMoneyCol_matches_ok col hdtype hcells)
  refine ⟨out, hout, ?_⟩
  have hnotin1 : name ∉ cols1.map Prod.fst := by
    intro hmem
    obtain ⟨p, hp, hpe⟩ := List.mem_map.mp hmem
    exact h1 p hp (hpe ▸ hname)
  unfold DataFrame.find
  rw [hcols2]
  simp only [Bool.false_eq_true, if_false]
  rw [show ∀ (F : Column R) (tail : List (String × Column R)),
    (cols1 ++ (name, F) :: cols2) ++ tail =
      cols1 ++ (name, F) :: (cols2 ++ tail) from fun F tail => by simp]
  exact listFind_middle _ _ _ _ hnotin1

/-- C4, witness: the theorem applied to a concrete money column holding
`"$1,234.50"` and a missing value. -/
theorem claim_C4_witness :
    ∃ out : DataFrame ℚ,
      clean_money_columns ℚ id id dfC4w ["a"] false false true = .ok out ∧
      out.find "a" = some ⟨Dtype.float64,
        [Cell.num ((2469 : ℚ) / 2), Cell.na]⟩ := by
  obtain ⟨out, hout, hfind⟩ :=
    claim_C4 ℚ id id ["a"] true dfC4w [] [] "a"
      ⟨Dtype.object, [Cell.str "$1,234.50", Cell.na]⟩
      rfl (by simp) (by simp) (by simp) (by decide) rfl
      (by
        intro c hc
        rcases List.mem_cons.mp hc with rfl | hc
        · exact Or.inl ⟨"$1,234.50", rfl, by decide⟩
        · simp only [List.mem_singleton] at hc
          exact Or.inr hc)
  refine ⟨out, hout, ?_⟩
  rw [hfind]
  have hval : (specCurrencyValue "$1,234.50" : ℚ) = 2469 / 2 := by
    rw [specCurrencyValue_eval "$1,234.50" 1234 50 2
      (by decide) (by decide) (by decide)]
    norm_num
  simp [parsedCell, hval, Rat.cast_id]

/-- C2, counterexample: on the claim's own example input
`["$0", "$5.00", "", "$0"]` with `indicator=true, log=false, scale=false`,
`clean_money_columns` raises `ValueError` on the empty string instead of
producing the stated indicator and main columns. -/
theorem claim_C2_counterexample :
    clean_money_columns ℝ Real.log Real.sqrt dfC2 ["a"] false false true =
      .error PdError.valueError := rfl

/-- C2, amended: when every value of the money column parses (or is already
missing), `indicator=true` adds a sibling `<name>_ind` boolean column, true
exactly where the parsed value equals zero, false where it is a nonzero
number, and missing where the parsed value is missing, computed from the raw
parsed values for every setting of the log and scale flags; the claim's
example holds once the unparseable empty string is replaced by a missing
value: `["$0", "$5.00", missing, "$0"]` gives indicator
`[true, false, missing, true]` and main column `[0.0, 5.0, missing, 0.0]`. -/
theorem claim_C2_amended :
    (∀ (R : Type) [Field R] [DecidableEq R] [CharZero R]
      (logFn sqrtFn : R → R) (money : List String) (log scale : Bool)
      (df : DataFrame R) (cols1 cols2 : List (String × Column R))
      (name : String) (col : Column R),
      df.cols = cols1 ++ (name, col) :: cols2 →
      (∀ p ∈ cols1, p.1 ∉ money) → (∀ p ∈ cols2, p.1 ∉ money) →
      name ∈ money → (name ++ "_ind") ∉ df.names →
      strAccessOk col.dtype = true →
      (∀ c ∈ col.cells,
        (∃ s, c = .str s ∧ matchesCurrency s = true) ∨ c = .na) →
      ∃ out : DataFrame R,
        clean_money_columns R logFn sqrtFn df money log scale true =
          .ok out ∧
        out.find (name ++ "_ind") = some ⟨Dtype.boolean,
          col.cells.map (fun c =>
            match c with
            | Cell.str s => Cell.bool (decide (specCurrencyValue s = 0))
            | _ => (Cell.na : Cell R))⟩) ∧
    (∃ out : DataFrame ℝ,
      clean_money_columns ℝ Real.log Real.sqrt dfC2ex ["a"] false false true =
        .ok out ∧
      out.find ("a" ++ "_ind") = some ⟨Dtype.boolean,
        [Cell.bool true, Cell.bool false, Cell.na, Cell.bool true]⟩ ∧
      out.find "a" = some ⟨Dtype.float64,
        [Cell.num 0, Cell.num 5, Cell.na, Cell.num 0]⟩) := by
  constructor
  · intro R _ _ _ logFn sqrtFn money log scale df cols1 cols2 name col
      hcols h1 h2 hname hnind hdtype hcells
    obtain ⟨out, hout, hidx, hcolseq⟩ :=
      clean_money_single_ok logFn sqrtFn money log scale true df
        cols1 cols2 name col _ hcols h1 h2 hname hnind
        (parseMoneyCol_matches_ok col hdtype hcells)
    refine ⟨out, hout, ?_⟩
    unfold DataFrame.find
    rw [hcolseq]
    rw [listFind_append_left _ _ _ (by
      intro hmem
      apply hnind
      unfold DataFrame.names
      rw [hcols]
      simpa using hmem)]
    rw [if_pos rfl, listFind_cons_self]
    congr 1
    unfold indicatorCol
    show (⟨Dtype.boolean, (col.cells.map _).map _⟩ : Column R) = _
    rw [List.map_map]
    congr 1
    refine List.map_congr_left ?_
    intro c hc
    rcases hcells c hc with ⟨s, rfl, _⟩ | rfl
    · show Cell.bool (decide (((specCurrencyValue s : ℚ) : R) = 0)) = _
      congr 1
      exact decide_eq_decide.mpr Rat.cast_eq_zero
    · rfl
  · have h0 : (specCurrencyValue "$0" : ℚ) = 0 := by
      rw [specCurrencyValue_eval "$0" 0 0 0 (by decide) (by decide) (by decide)]
      norm_num
    have h5 : (specCurrencyValue "$5.00" : ℚ) = 5 := by
      rw [specCurrencyValue_eval "$5.00" 5 0 2
        (by decide) (by decide) (by decide)]
      norm_num
    obtain ⟨out, hout, hidx, hcolseq⟩ :=
      clean_money_single_ok Real.log Real.sqrt ["a"] false false true dfC2ex
        [] [] "a" ⟨Dtype.object,
          [Cell.str "$0", Cell.str "$5.00", Cell.na, Cell.str "$0"]⟩ _
        rfl (by simp) (by simp) (by simp) (by decide)
        (parseMoneyCol_matches_ok _ rfl (by
          intro c hc
          rcases List.mem_cons.mp hc with rfl | hc
          · exact Or.inl ⟨"$0", rfl, by decide⟩
          rcases List.mem_cons.mp hc with rfl | hc
          · exact Or.inl ⟨"$5.00", rfl, by decide⟩
          rcases List.mem_cons.mp hc with rfl | hc
          · exact Or.inr rfl
          simp only [List.mem_singleton] at hc
          subst hc
          exact Or.inl ⟨"$0", rfl, by decide⟩))
    have hd0 : decide (((0 : ℚ) : ℝ) = 0) = true := decide_eq_true (by norm_num)
    have hd5 : decide (((5 : ℚ) : ℝ) = 0) = false :=
      decide_eq_false (by norm_num)
    refine ⟨out, hout, ?_, ?_⟩
    · unfold DataFrame.find
      rw [hcolseq]
      simp only [parsedCell, List.map_cons, List.map_nil, h0, h5]
      simp [listFind, indicatorCol, maskNaCell, eqZeroCell, hd0, hd5]
    · unfold DataFrame.find
      rw [hcolseq]
      simp only [parsedCell, List.map_cons, List.map_nil, h0, h5]
      simp [listFind]

/-- C2, witness: the general part of the amended theorem applied to a
concrete money column `["$0", missing]`. -/
theorem claim_C2_amended_witness :
    ∃ out : DataFrame ℚ,
      clean_money_columns ℚ id id dfC2w ["a"] false false true = .ok out ∧
      out.find ("a" ++ "_ind") = some ⟨Dtype.boolean,
        [Cell.bool true, Cell.na]⟩ := by
  obtain ⟨out, hout, hfind⟩ :=
    claim_C2_amended.1 ℚ id id ["a"] false false dfC2w [] [] "a"
      ⟨Dtype.object, [Cell.str "$0", Cell.na]⟩ rfl (by simp) (by simp)
      (by simp) (by decide) rfl
      (by
        intro c hc
        rcases List.mem_cons.mp hc with rfl | hc
        · exact Or.inl ⟨"$0", rfl, by decide⟩
        · simp only [List.mem_singleton] at hc
          exact Or.inr hc)
  refine ⟨out, hout, ?_⟩
  rw [hfind]
  have h0 : (specCurrencyValue "$0" : ℚ) = 0 := by
    rw [specCurrencyValue_eval "$0" 0 0 0 (by decide) (by decide) (by decide)]
    norm_num
  simp [h0]

/-- C7, counterexample: with a money column `a` and a pre-existing non-money
column named `a_ind`, `clean_money_columns` with `indicator=true` overwrites
the `a_ind` column with the indicator values, so a column not named in
`money_columns` does not pass through unmodified. -/
theorem claim_C7_counterexample :
    DataFrame.find dfC7 "a_ind" = some ⟨Dtype.object, [Cell.str "x"]⟩ ∧
    Except.map (fun out => DataFrame.find out "a_ind")
      (clean_money_columns ℝ Real.log Real.sqrt dfC7 ["a"] false false true) =
      .ok (some ⟨Dtype.boolean, [Cell.na]⟩) :=
  ⟨rfl, rfl⟩

/-- C7, amended: provided no column of the dataset is already named
`<m>_ind` for a money column `m`, a successful run of `clean_money_columns`
leaves every column not named in `money_columns` unchanged (same name, dtype
and values), and every column of the result is either a column name of the
input or an added `<m>_ind` indicator name; without that proviso a
pre-existing `<m>_ind` column is overwritten rather than left unchanged. -/
theorem claim_C7_amended (R : Type) [Field R] [DecidableEq R]
    (logFn sqrtFn : R → R) (money : List String) (log scale indicator : Bool)
    (df out : DataFrame R)
    (hok : clean_money_columns R logFn sqrtFn df money log scale indicator =
      .ok out)
    (hnocollide : ∀ m ∈ money, (m ++ "_ind") ∉ df.names) :
    (∀ n col, n ∉ money → df.find n = some col → out.find n = some col) ∧
    (∀ x ∈ out.names, x ∈ df.names ∨ ∃ m ∈ money, x = m ++ "_ind") := by
  constructor
  · intro n col hn hfind
    have hnmem : n ∈ df.names := listFind_mem df.cols n col hfind
    refine foldlM_ok_ind
      (moneyStep logFn sqrtFn money log scale indicator)
      (fun d => d.find n = some col) df.names ?_ df out hok hfind
    intro d d' a _ hstep hp
    by_cases hm : a ∈ money
    · have hn1 : n ≠ a := fun he => hn (he ▸ hm)
      have hn2 : n ≠ a ++ "_ind" := by
        intro he
        exact hnocollide a hm (he ▸ hnmem)
      rw [moneyStep_preserves_find logFn sqrtFn money log scale indicator
        d d' a n hstep hn1 hn2]
      exact hp
    · rw [moneyStep_not_money logFn sqrtFn money log scale indicator d a hm]
        at hstep
      injection hstep with h
      rw [← h]
      exact hp
  · refine foldlM_ok_ind
      (moneyStep logFn sqrtFn money log scale indicator)
      (fun d => ∀ x ∈ d.names, x ∈ df.names ∨ ∃ m ∈ money, x = m ++ "_ind")
      df.names ?_ df out hok (fun x hx => Or.inl hx)
    intro d d' a ha hstep hp x hx
    by_cases hm : a ∈ money
    · rcases moneyStep_names_subset logFn sqrtFn money log scale indicator
        d d' a hstep x hx with hxd | hxind
      · exact hp x hxd
      · exact Or.inr ⟨a, hm, hxind⟩
    · rw [moneyStep_not_money logFn sqrtFn money log scale indicator d a hm]
        at hstep
      injection hstep with h
      rw [← h] at hx
      exact hp x hx

/-- C7, witness: the amended theorem applied to a concrete frame with a
single non-money column `b` and an absent money column `m`. -/
theorem claim_C7_amended_witness :
    DataFrame.find dfC7w "b" = some ⟨Dtype.object, [Cell.str "hello"]⟩ :=
  (claim_C7_amended ℚ id id ["m"] false false true dfC7w dfC7w rfl
    (by decide)).1 "b" ⟨Dtype.object, [Cell.str "hello"]⟩ (by decide) rfl

/-- C6: with `log=true` (and `scale=false`), every parsed money value `v` is
replaced by `ln(v + 1.0)` and missing values remain missing; on the example
column `["$0", "$1"]` the result is `[ln 1, ln 2]`. -/
theorem claim_C6 :
    (∀ (money : List String) (indicator : Bool) (df : DataFrame ℝ)
      (cols1 cols2 : List (String × Column ℝ)) (name : String) (col : Column ℝ),
      df.cols = cols1 ++ (name, col) :: cols2 →
      (∀ p ∈ cols1, p.1 ∉ money) → (∀ p ∈ cols2, p.1 ∉ money) →
      name ∈ money → (name ++ "_ind") ∉ df.names →
      strAccessOk col.dtype = true →
      (∀ c ∈ col.cells,
        (∃ s, c = .str s ∧ matchesCurrency s = true) ∨ c = .na) →
      ∃ out : DataFrame ℝ,
        clean_money_columns ℝ Real.log Real.sqrt df money true false
          indicator = .ok out ∧
        out.find name = some ⟨Dtype.float64, col.cells.map (fun c =>
          match c with
          | Cell.str s =>
            Cell.num (Real.log (((specCurrencyValue s : ℚ) : ℝ) + 1))
          | _ => (Cell.na : Cell ℝ))⟩) ∧
    (∃ out : DataFrame ℝ,
      clean_money_columns ℝ Real.log Real.sqrt dfC6ex ["a"] true false true =
        .ok out ∧
      out.find "a" = some ⟨Dtype.float64,
        [Cell.num (Real.log 1), Cell.num (Real.log 2)]⟩) := by
  have hgen : ∀ (money : List String) (indicator : Bool) (df : DataFrame ℝ)
      (cols1 cols2 : List (String × Column ℝ)) (name : String)
      (col : Column ℝ),
      df.cols = cols1 ++ (name, col) :: cols2 →
      (∀ p ∈ cols1, p.1 ∉ money) → (∀ p ∈ cols2, p.1 ∉ money) →
      name ∈ money → (name ++ "_ind") ∉ df.names →
      strAccessOk col.dtype = true →
      (∀ c ∈ col.cells,
        (∃ s, c = .str s ∧ matchesCurrency s = true) ∨ c = .na) →
      ∃ out : DataFrame ℝ,
        clean_money_columns ℝ Real.log Real.sqrt df money true false
          indicator = .ok out ∧
        out.find name = some ⟨Dtype.float64, col.cells.map (fun c =>
          match c with
          | Cell.str s =>
            Cell.num (Real.log (((specCurrencyValue s : ℚ) : ℝ) + 1))
          | _ => (Cell.na : Cell ℝ))⟩ := by
    intro money indicator df cols1 cols2 name col
      hcols h1 h2 hname hnind hdtype hcells
    obtain ⟨out, hout, hidx, hcolseq⟩ :=
      clean_money_single_ok Real.log Real.sqrt money true false indicator df
        cols1 cols2 name col _ hcols h1 h2 hname hnind
        (parseMoneyCol_matches_ok col hdtype hcells)
    refine ⟨out, hout, ?_⟩
    have hnotin1 : name ∉ cols1.map Prod.fst := by
      intro hmem
      obtain ⟨p, hp, hpe⟩ := List.mem_map.mp hmem
      exact h1 p hp (hpe ▸ hname)
    unfold DataFrame.find
    rw [hcolseq]
    rw [show ∀ (F : Column ℝ) (tail : List (String × Column ℝ)),
      (cols1 ++ (name, F) :: cols2) ++ tail =
        cols1 ++ (name, F) :: (cols2 ++ tail) from fun F tail => by simp]
    rw [listFind_middle _ _ _ _ hnotin1]
    congr 1
    show logCol Real.log ⟨Dtype.float64, col.cells.map _⟩ = _
    unfold logCol
    show (⟨Dtype.float64, (col.cells.map _).map _⟩ : Column ℝ) = _
    rw [List.map_map]
    congr 1
    refine List.map_congr_left ?_
    intro c hc
    rcases hcells c hc with ⟨s, rfl, _⟩ | rfl
    · rfl
    · rfl
  refine ⟨hgen, ?_⟩
  obtain ⟨out, hout, hfind⟩ :=
    hgen ["a"] true dfC6ex [] [] "a"
      ⟨Dtype.object, [Cell.str "$0", Cell.str "$1"]⟩
      rfl (by simp) (by simp) (by simp) (by decide)
      rfl
      (by
        intro c hc
        rcases List.mem_cons.mp hc with rfl | hc
        · exact Or.inl ⟨"$0", rfl, by decide⟩
        · simp only [List.mem_singleton] at hc
          subst hc
          exact Or.inl ⟨"$1", rfl, by decide⟩)
  refine ⟨out, hout, ?_⟩
  rw [hfind]
  have h0 : (specCurrencyValue "$0" : ℚ) = 0 := by
    rw [specCurrencyValue_eval "$0" 0 0 0 (by decide) (by decide) (by decide)]
    norm_num
  have h1 : (specCurrencyValue "$1" : ℚ) = 1 := by
    rw [specCurrencyValue_eval "$1" 1 0 0 (by decide) (by decide) (by decide)]
    norm_num
  simp only [List.map_cons, List.map_nil, h0, h1, Rat.cast_zero, Rat.cast_one]
  norm_num

/-- C6, witness: the general part of the theorem applied to a concrete
one-cell money column `["$2"]`. -/
theorem claim_C6_witness :
    ∃ out : DataFrame ℝ,
      clean_money_columns ℝ Real.log Real.sqrt
        ⟨[0], [("a", ⟨Dtype.object, [Cell.str "$2"]⟩)], by decide⟩
        ["a"] true false true = .ok out ∧
      out.find "a" = some ⟨Dtype.float64,
        [Cell.num (Real.log (((specCurrencyValue "$2" : ℚ) : ℝ) + 1))]⟩ :=
  claim_C6.1 ["a"] true
    ⟨[0], [("a", ⟨Dtype.object, [Cell.str "$2"]⟩)], by decide⟩ [] [] "a"
    ⟨Dtype.object, [Cell.str "$2"]⟩ rfl (by simp) (by simp) (by simp)
    (by decide) rfl
    (by
      intro c hc
      simp only [List.mem_singleton] at hc
      subst hc
      exact Or.inl ⟨"$2", rfl, by decide⟩)

theorem scaleCol_spec (col : Column ℝ) (h : col.dtype = Dtype.float64) :
    scaleCol Real.sqrt col =
      ⟨Dtype.float64, col.cells.map (scaledCellSpec (colVals col))⟩ := by
  unfold scaleCol
  refine congrArg₂ Column.mk h ?_
  refine List.map_congr_left ?_
  intro c _
  cases c <;> rfl

/-- C5: with `scale=true`, every non-missing value `v` of a money column is
replaced by `(v - mean) / stddev`, where the mean is the sum of the
non-missing values divided by their count and the standard deviation is the
square root of the sum of squared deviations divided by `count - 1`
(sample standard deviation, `ddof=1`, spelled out in `scaledCellSpec`), both
taken over the column after the log step when `log` is also true; on a
column whose values at that point are `[1.0, 2.0, 3.0]` the result is
`[-1.0, 0.0, 1.0]`. -/
theorem claim_C5 :
    (∀ (money : List String) (indicator log : Bool) (df : DataFrame ℝ)
      (cols1 cols2 : List (String × Column ℝ)) (name : String)
      (col based : Column ℝ),
      df.cols = cols1 ++ (name, col) :: cols2 →
      (∀ p ∈ cols1, p.1 ∉ money) → (∀ p ∈ cols2, p.1 ∉ money) →
      name ∈ money → (name ++ "_ind") ∉ df.names →
      strAccessOk col.dtype = true →
      (∀ c ∈ col.cells,
        (∃ s, c = .str s ∧ matchesCurrency s = true) ∨ c = .na) →
      based = (if log then
          logCol Real.log ⟨Dtype.float64, col.cells.map parsedCell⟩
        else ⟨Dtype.float64, col.cells.map parsedCell⟩) →
      ∃ out : DataFrame ℝ,
        clean_money_columns ℝ Real.log Real.sqrt df money log true
          indicator = .ok out ∧
        out.find name =
          some ⟨Dtype.float64,
            based.cells.map (scaledCellSpec (colVals based))⟩) ∧
    (∃ out : DataFrame ℝ,
      clean_money_columns ℝ Real.log Real.sqrt dfC5ex ["a"] false true true =
        .ok out ∧
      out.find "a" = some ⟨Dtype.float64,
        [Cell.num (-1), Cell.num 0, Cell.num 1]⟩) := by
  have hgen : ∀ (money : List String) (indicator log : Bool) (df : DataFrame ℝ)
      (cols1 cols2 : List (String × Column ℝ)) (name : String)
      (col based : Column ℝ),
      df.cols = cols1 ++ (name, col) :: cols2 →
      (∀ p ∈ cols1, p.1 ∉ money) → (∀ p ∈ cols2, p.1 ∉ money) →
      name ∈ money → (name ++ "_ind") ∉ df.names →
      strAccessOk col.dtype = true →
      (∀ c ∈ col.cells,
        (∃ s, c = .str s ∧ matchesCurrency s = true) ∨ c = .na) →
      based = (if log then
          logCol Real.log ⟨Dtype.float64, col.cells.map parsedCell⟩
        else ⟨Dtype.float64, col.cells.map parsedCell⟩) →
      ∃ out : DataFrame ℝ,
        clean_money_columns ℝ Real.log Real.sqrt df money log true
          indicator = .ok out ∧
        out.find name =
          some ⟨Dtype.float64,
            based.cells.map (scaledCellSpec (colVals based))⟩ := by
    intro money indicator log df cols1 cols2 name col based
      hcols h1 h2 hname hnind hdtype hcells hbased
    subst hbased
    obtain ⟨out, hout, hidx, hcolseq⟩ :=
      clean_money_single_ok Real.log Real.sqrt money log true indicator df
        cols1 cols2 name col _ hcols h1 h2 hname hnind
        (parseMoneyCol_matches_ok col hdtype hcells)
    refine ⟨out, hout, ?_⟩
    have hnotin1 : name ∉ cols1.map Prod.fst := by
      intro hmem
      obtain ⟨p, hp, hpe⟩ := List.mem_map.mp hmem
      exact h1 p hp (hpe ▸ hname)
    unfold DataFrame.find
    rw [hcolseq]
    rw [show ∀ (F : Column ℝ) (tail : List (String × Column ℝ)),
      (cols1 ++ (name, F) :: cols2) ++ tail =
        cols1 ++ (name, F) :: (cols2 ++ tail) from fun F tail => by simp]
    rw [listFind_middle _ _ _ _ hnotin1]
    rw [if_pos rfl, scaleCol_spec _ (by cases log <;> rfl)]
  refine ⟨hgen, ?_⟩
  obtain ⟨out, hout, hfind⟩ :=
    hgen ["a"] true false dfC5ex [] [] "a"
      ⟨Dtype.object, [Cell.str "1", Cell.str "2", Cell.str "3"]⟩ _
      rfl (by simp) (by simp) (by simp) (by decide) rfl
      (by
        intro c hc
        rcases List.mem_cons.mp hc with rfl | hc
        · exact Or.inl ⟨"1", rfl, by decide⟩
        rcases List.mem_cons.mp hc with rfl | hc
        · exact Or.inl ⟨"2", rfl, by decide⟩
        simp only [List.mem_singleton] at hc
        subst hc
        exact Or.inl ⟨"3", rfl, by decide⟩)
      rfl
  refine ⟨out, hout, ?_⟩
  rw [hfind]
  have h1 : (specCurrencyValue "1" : ℚ) = 1 := by
    rw [specCurrencyValue_eval "1" 1 0 0 (by decide) (by decide) (by decide)]
    norm_num
  have h2 : (specCurrencyValue "2" : ℚ) = 2 := by
    rw [specCurrencyValue_eval "2" 2 0 0 (by decide) (by decide) (by decide)]
    norm_num
  have h3 : (specCurrencyValue "3" : ℚ) = 3 := by
    rw [specCurrencyValue_eval "3" 3 0 0 (by decide) (by decide) (by decide)]
    norm_num
  have hcells3 : ([Cell.str "1", Cell.str "2", Cell.str "3"] :
      List (Cell ℝ)).map parsedCell = [Cell.num 1, Cell.num 2, Cell.num 3] := by
    simp only [List.map_cons, List.map_nil, parsedCell, h1, h2, h3,
      Rat.cast_one, Rat.cast_ofNat]
  simp only [Bool.false_eq_true, if_false, hcells3]
  have hcv : colVals (⟨Dtype.float64,
      [Cell.num (1 : ℝ), Cell.num 2, Cell.num 3]⟩ : Column ℝ) = [1, 2, 3] :=
    rfl
  simp only [hcv]
  simp only [scaledCellSpec, List.map_cons, List.map_nil]
  norm_num [List.sum_cons, List.sum_nil, Real.sqrt_one]

/-- C5, witness: the general part of the theorem applied to a concrete
one-cell money column, with `log=true`. -/
theorem claim_C5_witness :
    ∃ out : DataFrame ℝ,
      clean_money_columns ℝ Real.log Real.sqrt
        ⟨[0], [("a", ⟨Dtype.object, [Cell.str "$3"]⟩)], by decide⟩
        ["a"] true true true = .ok out ∧
      out.find "a" = some ⟨Dtype.float64,
        (logCol Real.log ⟨Dtype.float64,
          ([Cell.str "$3"] : List (Cell ℝ)).map parsedCell⟩).cells.map
          (scaledCellSpec (colVals (logCol Real.log ⟨Dtype.float64,
            ([Cell.str "$3"] : List (Cell ℝ)).map parsedCell⟩)))⟩ :=
  claim_C5.1 ["a"] true true
    ⟨[0], [("a", ⟨Dtype.object, [Cell.str "$3"]⟩)], by decide⟩ [] [] "a"
    ⟨Dtype.object, [Cell.str "$3"]⟩ _ rfl (by simp) (by simp) (by simp)
    (by decide) rfl
    (by
      intro c hc
      simp only [List.mem_singleton] at hc
      subst hc
      exact Or.inl ⟨"$3", rfl, by decide⟩)
    rfl


/-- C8: `clean_types` classifies text/object dtypes as categorical, else
boolean dtypes as boolean, anything else (integer, floating point, or any
residual dtype) as numeric; categorical columns are converted to the
`category` representation while numeric and boolean columns pass through
unchanged; the output lists all numeric columns first, then all categorical
columns, then all boolean columns, preserving the original relative order
inside each group; for input column order `[text, int, bool, float]` the
output order is `[int, float, text, bool]`. -/
theorem claim_C8 :
    (∀ (R : Type) (df : DataFrame R),
      (clean_types df).cols =
        df.cols.filter (fun p => classifyDtype p.2.dtype = Kind.numeric) ++
        (df.cols.filter
          (fun p => classifyDtype p.2.dtype = Kind.categorical)).map
          (fun p => (p.1, ⟨Dtype.category, p.2.cells⟩)) ++
        df.cols.filter (fun p => classifyDtype p.2.dtype = Kind.booleanKind)) ∧
    (∀ d : Dtype,
      (classifyDtype d = Kind.categorical ↔
        (d = Dtype.object ∨ d = Dtype.string)) ∧
      (classifyDtype d = Kind.booleanKind ↔
        (¬(d = Dtype.object ∨ d = Dtype.string) ∧
          (d = Dtype.bool ∨ d = Dtype.boolean))) ∧
      (classifyDtype d = Kind.numeric ↔
        (¬(d = Dtype.object ∨ d = Dtype.string) ∧
          ¬(d = Dtype.bool ∨ d = Dtype.boolean)))) ∧
    (clean_types dfC8ex).names = ["i", "f", "t", "b"] := by
  refine ⟨?_, ?_, ?_⟩
  · intro R df
    show ((typeBuckets df).nums ++ (typeBuckets df).cats) ++
      (typeBuckets df).bools = _
    rw [typeBuckets_eq]
    rfl
  · intro d
    cases d <;> exact ⟨by decide, by decide, by decide⟩
  · rfl

/-- C8, witness: the grouping characterization applied to the concrete
example frame. -/
theorem claim_C8_witness :
    (clean_types dfC8ex).cols =
      dfC8ex.cols.filter (fun p => classifyDtype p.2.dtype = Kind.numeric) ++
      (dfC8ex.cols.filter
        (fun p => classifyDtype p.2.dtype = Kind.categorical)).map
        (fun p => (p.1, ⟨Dtype.category, p.2.cells⟩)) ++
      dfC8ex.cols.filter (fun p => classifyDtype p.2.dtype = Kind.booleanKind) :=
  claim_C8.1 ℚ dfC8ex

theorem classify_filter_length {R : Type} (l : List (String × Column R)) :
    (l.filter (fun p => classifyDtype p.2.dtype = Kind.numeric)).length +
    (l.filter (fun p => classifyDtype p.2.dtype = Kind.categorical)).length +
    (l.filter (fun p => classifyDtype p.2.dtype = Kind.booleanKind)).length =
      l.length := by
  induction l with
  | nil => rfl
  | cons p l ih =>
    simp only [List.filter_cons]
    rcases hk : classifyDtype p.2.dtype with _ | _ | _ <;>
      simp [hk] <;> omega

/-- C9: for every dataset, `clean_types` preserves the row index (hence the
row count, identity and order) and the total number of columns. -/
theorem claim_C9 (R : Type) (df : DataFrame R) :
    (clean_types df).idx = df.idx ∧
    (clean_types df).cols.length = df.cols.length := by
  constructor
  · rfl
  · show (((typeBuckets df).nums ++ (typeBuckets df).cats) ++
      (typeBuckets df).bools).length = _
    rw [typeBuckets_eq]
    simp only [List.length_append, List.length_map]
    exact classify_filter_length df.cols

/-- C9, witness: row index and column count preservation on the concrete
example frame. -/
theorem claim_C9_witness :
    (clean_types dfC8ex).idx = dfC8ex.idx ∧
    (clean_types dfC8ex).cols.length = dfC8ex.cols.length :=
  claim_C9 ℚ dfC8ex

end Utilities
